import Mathlib

/-!
Periodic statistics of the dnsfilter plugin.

A shallow embedding of `coredns_plugin/coredns_stats.go`.

* A `time.Time` is an integer count of nanoseconds, a `time.Duration` an
  `int64` count of nanoseconds.  `time.Time.Sub` saturates at the ends of the
  `int64` range, integer division truncates toward zero.
* The clock reading taken by `time.Since` is an explicit argument `now`.
* A run-time fault of the Go program (integer division by zero, index out of
  range) is the result `none`.
* The bucket values are `float64` in the source.  The embedding is generic in
  the type `F` of bucket values and only uses the operations the source uses
  (`0`, `1`, `+`, `*`, `/`, comparison with `0`); each theorem lists the
  arithmetic laws it relies on in its instance arguments.
* `statsEntries` is a Go map: a name is either absent or bound to an array of
  `statsHistoryElements` values.  Reading an absent name yields the all-zero
  array, as a Go map read does.  The map is an allocated one, as
  `initPeriodicStats` leaves it.
* The lock of a series and the Prometheus collectors are not modelled: every
  operation is taken as one atomic step on the series.
* Of the HTTP handlers the part between the query parameters and the value
  handed to the JSON encoder is modelled: `time.Parse` is given by its result,
  encoding and writing the response are left out.
* `reason_string.go`: a `Reason` is a Go `int`, `strconv.FormatInt` the decimal
  rendering.
* `config.go`: the loop of `parseConfig` that sets `NextFilterId`.
-/

namespace Dnsfilter

/-! ## Definitions -/

/-- How far back to keep the stats: `const statsHistoryElements = 60 + 1`. -/
abbrev statsHistoryElements : Nat := 60 + 1

/-- Smallest `time.Duration`. -/
def minDuration : Int := -(2 ^ 63)

/-- Largest `time.Duration`. -/
def maxDuration : Int := 2 ^ 63 - 1

/-- Two's complement wrap-around of an `int64` result. -/
def wrapInt64 (x : Int) : Int := (x + 2 ^ 63) % 2 ^ 64 - 2 ^ 63

/-- The method `time.Time.Sub`: the difference `t - u`, saturated to the range
of a `time.Duration`. -/
def timeSub (t u : Int) : Int :=
  if t - u < minDuration then minDuration
  else if t - u > maxDuration then maxDuration
  else t - u

/-- The function `time.Since` with the clock reading `now` made explicit. -/
def timeSince (now when : Int) : Int := timeSub now when

/-- Division of two durations, `int64(d / period)`: truncated toward zero, a
run-time fault when the divisor is zero. -/
def durationDiv (d period : Int) : Option Int :=
  if period = 0 then none else some (wrapInt64 (d.tdiv period))

/-- One array `[statsHistoryElements]float64`. -/
abbrev Buckets (F : Type) : Type := Fin statsHistoryElements → F

/-- The zero value `[statsHistoryElements]float64{}`. -/
def zeroBuckets (F : Type) [Zero F] : Buckets F := fun _ => 0

/-- A Go integer used as an array index: a run-time fault unless it lies in
`0 .. statsHistoryElements - 1`. -/
def arrayIndex (i : Int) : Option (Fin statsHistoryElements) :=
  if h : 0 ≤ i ∧ i < statsHistoryElements then some ⟨i.toNat, by omega⟩ else none

/-- The map type `statsEntries`: `map[string][statsHistoryElements]float64`. -/
abbrev statsEntries (F : Type) : Type := String → Option (Buckets F)

/-- The empty map `statsEntries{}`. -/
def statsEntries.empty (F : Type) : statsEntries F := fun _ => none

/-- A map read `e[name]`: the zero array when the name is absent. -/
def statsEntries.read {F : Type} [Zero F] (e : statsEntries F) (name : String) : Buckets F :=
  (e name).getD (zeroBuckets F)

/-- A map write `e[name] = values`. -/
def statsEntries.write {F : Type} (e : statsEntries F) (name : String) (values : Buckets F) :
    statsEntries F :=
  fun key => if key = name then some values else e key

/-- Each periodic stat is a map of arrays (the lock is not modelled). -/
structure periodicStats (F : Type) where
  /-- The buckets of every metric. -/
  Entries : statsEntries F
  /-- How long one entry lasts. -/
  period : Int
  /-- Last time this data was rotated. -/
  LastRotate : Int

/-- The function `initPeriodicStats`, with the clock reading `now` explicit. -/
def initPeriodicStats (F : Type) (now period : Int) : periodicStats F :=
  { Entries := statsEntries.empty F, LastRotate := now, period := period }

/-- The method `periodicStats.Inc`. -/
def periodicStats.Inc {F : Type} [Zero F] [One F] [Add F] (p : periodicStats F) (now : Int)
    (name : String) (when : Int) : Option (periodicStats F) :=
  -- calculate how many periods ago this happened
  match durationDiv (timeSince now when) p.period with
  | none => none
  | some elapsed =>
    if elapsed ≥ statsHistoryElements then
      some p -- outside of our timeframe
    else
      match arrayIndex elapsed with
      | none => none
      | some idx =>
        let currentValues := p.Entries.read name
        let currentValues := Function.update currentValues idx (currentValues idx + 1)
        some { p with Entries := p.Entries.write name currentValues }

/-- The method `periodicStats.Observe`. -/
def periodicStats.Observe {F : Type} [Zero F] [One F] [Add F] (p : periodicStats F) (now : Int)
    (name : String) (when : Int) (value : F) : Option (periodicStats F) :=
  match durationDiv (timeSince now when) p.period with
  | none => none
  | some elapsed =>
    if elapsed ≥ statsHistoryElements then
      some p -- outside of our timeframe
    else
      match arrayIndex elapsed with
      | none => none
      | some idx =>
        let countname := name ++ "_count"
        let currentValues := p.Entries.read countname
        let value1 := currentValues idx
        let value1 := value1 + 1
        let currentValues := Function.update currentValues idx value1
        let entries := p.Entries.write countname currentValues
        let totalname := name ++ "_sum"
        let currentValues := entries.read totalname
        let currentValues := Function.update currentValues idx (currentValues idx + value)
        some { p with Entries := entries.write totalname currentValues }

/-- The inner loop of `statsRotate`: starting from the zero array,
`for i := 1; i < len(values); i++ { newValues[i] = values[i-1] }`. -/
def rotateValues {F : Type} [Zero F] (values : Buckets F) : Buckets F :=
  ((List.finRange statsHistoryElements).filter (fun i => 1 ≤ i.val)).foldl
    (fun newValues i => Function.update newValues i (values ⟨i.val - 1, by omega⟩))
    (zeroBuckets F)

/-- One pass of the middle loop of `statsRotate`: every key of the map gets its
rotated array. -/
def rotateEntries {F : Type} [Zero F] (e : statsEntries F) : statsEntries F :=
  fun key => (e key).map rotateValues

/-- The method `periodicStats.statsRotate`. -/
def periodicStats.statsRotate {F : Type} [Zero F] (p : periodicStats F) (now : Int) :
    Option (periodicStats F) :=
  match durationDiv (timeSub now p.LastRotate) p.period with
  | none => none
  | some rotations =>
    let rotations : Int := if rotations > statsHistoryElements then statsHistoryElements
      else rotations
    -- calculate how many times we should rotate
    let entries := Nat.iterate rotateEntries rotations.toNat p.Entries
    some { Entries := entries
           period := p.period
           LastRotate := if rotations > 0 then now else p.LastRotate }

/-- The function `clamp`. -/
def clamp (value low high : Int) : Int :=
  if value < low then low
  else if value > high then high
  else value

/-- The loop of `getReversedSlice` with `n` iterations left, loop variable `i`
and the slice built so far. -/
def getReversedSliceLoop {F : Type} (input : Buckets F) : Nat → Int → List F → Option (List F)
  | 0, _, output => some output
  | n + 1, i, output =>
    match arrayIndex i with
    | none => none
    | some idx => getReversedSliceLoop input n (i + 1) (input idx :: output)

/-- The function `getReversedSlice`: the loop `for i := start; i <= end; i++`
runs `end - start + 1` times when `start <= end` and not at all otherwise. -/
def getReversedSlice {F : Type} (input : Buckets F) (start end_ : Int) : Option (List F) :=
  getReversedSliceLoop input (end_ - start + 1).toNat start []

/-- A counter, as far as the periodic stats use it: its key and its value
(the Prometheus counter it wraps is not modelled). -/
structure counter where
  /-- Used as key in periodic stats. -/
  name : String
  /-- The cumulative value. -/
  value : Int

/-- A histogram, as far as the periodic stats use it (the Prometheus histogram
it wraps is not modelled). -/
structure histogram (F : Type) where
  /-- Used as key in periodic stats. -/
  name : String
  /-- The number of observations. -/
  count : Int
  /-- The sum of the observed values. -/
  total : F

/-- The function `newDNSCounter`. -/
def newDNSCounter (name : String) : counter := { name := name, value := 0 }

/-- The function `newDNSHistogram`. -/
def newDNSHistogram (F : Type) [Zero F] (name : String) : histogram F :=
  { name := name, count := 0, total := 0 }

/-- Count of requests seen by dnsfilter. -/
def requests : counter := newDNSCounter "requests_total"

/-- Count of requests filtered by dnsfilter. -/
def filtered : counter := newDNSCounter "filtered_total"

/-- Count of requests filtered by dnsfilter using safebrowsing. -/
def filteredSafebrowsing : counter := newDNSCounter "filtered_safebrowsing_total"

/-- Count of requests filtered by dnsfilter using parental. -/
def filteredParental : counter := newDNSCounter "filtered_parental_total"

/-- Count of requests replaced by dnsfilter safesearch. -/
def safesearch : counter := newDNSCounter "safesearch_total"

/-- Histogram of the time (in seconds) each request took. -/
def elapsedTime (F : Type) [Zero F] : histogram F := newDNSHistogram F "request_duration"

/-- The loop of `generateMapFromStats` that fills `avgProcessingTime`, with `n`
iterations left and loop variable `i`:
`for i := 0; i < len(count); i++ { ... }`.  Reading past the end of a slice is a
run-time fault. -/
def avgProcessingTimeLoop {F : Type} [Zero F] [Mul F] [Div F] [OfNat F 1000] [DecidableEq F]
    (count sum : List F) : Nat → Nat → List F → Option (List F)
  | 0, _, avgProcessingTime => some avgProcessingTime
  | n + 1, i, avgProcessingTime =>
    match count[i]?, sum[i]? with
    | some c, some s =>
      let avg : F := if c ≠ 0 then s / c * 1000 else 0
      avgProcessingTimeLoop count sum n (i + 1) (avgProcessingTime ++ [avg])
    | _, _ => none

/-- The function `generateMapFromStats`; the resulting map is the list of its
six bindings. -/
def generateMapFromStats {F : Type} [Zero F] [Mul F] [Div F] [OfNat F 1000] [DecidableEq F]
    (stats : periodicStats F) (start end_ : Int) : Option (List (String × List F)) :=
  -- clamp
  let start := clamp start 0 statsHistoryElements
  let end_ := clamp end_ 0 statsHistoryElements
  match getReversedSlice (stats.Entries.read ((elapsedTime F).name ++ "_count")) start end_,
      getReversedSlice (stats.Entries.read ((elapsedTime F).name ++ "_sum")) start end_ with
  | some count, some sum =>
    match avgProcessingTimeLoop count sum count.length 0 [],
        getReversedSlice (stats.Entries.read requests.name) start end_,
        getReversedSlice (stats.Entries.read filtered.name) start end_,
        getReversedSlice (stats.Entries.read filteredSafebrowsing.name) start end_,
        getReversedSlice (stats.Entries.read safesearch.name) start end_,
        getReversedSlice (stats.Entries.read filteredParental.name) start end_ with
    | some avgProcessingTime, some dnsQueries, some blockedFiltering, some replacedSafebrowsing,
        some replacedSafesearch, some replacedParental =>
      some [("dns_queries", dnsQueries),
            ("blocked_filtering", blockedFiltering),
            ("replaced_safebrowsing", replacedSafebrowsing),
            ("replaced_safesearch", replacedSafesearch),
            ("replaced_parental", replacedParental),
            ("avg_processing_time", avgProcessingTime)]
    | _, _, _, _, _, _ => none
  | _, _ => none

/-- A map read `m[key]` on the result of `generateMapFromStats`. -/
def mapLookup {F : Type} (m : List (String × List F)) (key : String) : Option (List F) :=
  (m.find? (fun kv => kv.1 = key)).map Prod.snd

/-- The periods this development covers: positive, and the retained history of
`statsHistoryElements` periods fits a `time.Duration` (as the product
`timeUnit * statsHistoryElements` of `HandleStatsHistory` requires).  The four
periods set by `purgeStats` are of this kind. -/
def validPeriod (period : Int) : Prop :=
  0 < period ∧ (statsHistoryElements : Int) * period ≤ maxDuration

/-- The constant `time.Second`, in nanoseconds. -/
def second : Int := 1000000000

/-- The constant `time.Minute`. -/
def minute : Int := 60 * second

/-- The constant `time.Hour`. -/
def hour : Int := 60 * minute

/-- A run of calls `p.Inc(name, when)`, one for each element `(now, when)` of
the list, `now` being the clock reading of that call. -/
def IncRepeatedly {F : Type} [Zero F] [One F] [Add F] (p : periodicStats F) (name : String) :
    List (Int × Int) → Option (periodicStats F)
  | [] => some p
  | (now, when) :: rest =>
    match p.Inc now name when with
    | none => none
    | some q => IncRepeatedly q name rest

/-- A per-second series, last rotated at time 0, whose only metric
`requests_total` holds 1 in bucket 0 and 0 elsewhere. -/
def oneRequestSeries : periodicStats ℚ :=
  { Entries := (statsEntries.empty ℚ).write "requests_total"
      (Function.update (zeroBuckets ℚ) 0 1)
    period := second
    LastRotate := 0 }

/-- A per-hour series, last rotated at time 0, whose current bucket holds two
observations of `request_duration` that sum to 0.6 seconds. -/
def latencySeries : periodicStats ℚ :=
  { Entries := ((statsEntries.empty ℚ).write "request_duration_count"
        (Function.update (zeroBuckets ℚ) 0 2)).write "request_duration_sum"
      (Function.update (zeroBuckets ℚ) 0 (3 / 5))
    period := hour
    LastRotate := 0 }

/-- The struct `stats`: per-second/per-minute/per-hour/per-day stats. -/
structure stats (F : Type) where
  /-- The per-second series. -/
  PerSecond : periodicStats F
  /-- The per-minute series. -/
  PerMinute : periodicStats F
  /-- The per-hour series. -/
  PerHour : periodicStats F
  /-- The per-day series. -/
  PerDay : periodicStats F

/-- The function `purgeStats` on the global `statistics`: every modelled field
of the four series is overwritten.  Each call of `initPeriodicStats` reads the
clock; `now1 .. now4` are these readings. -/
def purgeStats {F : Type} (_statistics : stats F) (now1 now2 now3 now4 : Int) : stats F :=
  { PerSecond := initPeriodicStats F now1 second
    PerMinute := initPeriodicStats F now2 minute
    PerHour := initPeriodicStats F now3 hour
    PerDay := initPeriodicStats F now4 (hour * 24) }

/-- The method `counter.IncWithTime` on the global `statistics`; `now1 .. now4`
are the clock readings of the four calls of `Inc`.  The Prometheus counter is
not modelled. -/
def counter.IncWithTime {F : Type} [Zero F] [One F] [Add F] (c : counter) (statistics : stats F)
    (now1 now2 now3 now4 : Int) (when : Int) : Option (stats F × counter) :=
  match statistics.PerSecond.Inc now1 c.name when with
  | none => none
  | some perSecond =>
    match statistics.PerMinute.Inc now2 c.name when with
    | none => none
    | some perMinute =>
      match statistics.PerHour.Inc now3 c.name when with
      | none => none
      | some perHour =>
        match statistics.PerDay.Inc now4 c.name when with
        | none => none
        | some perDay =>
          some ({ PerSecond := perSecond, PerMinute := perMinute, PerHour := perHour,
                  PerDay := perDay },
                { c with value := wrapInt64 (c.value + 1) })

/-- A value of the map `summed` of `HandleStats` (`map[string]interface{}`): a
`float64` or a string. -/
inductive jsonValue (F : Type) where
  /-- A `float64`. -/
  | number (x : F)
  /-- A string. -/
  | text (s : String)

/-- A map read `summed[key]`. -/
def summaryLookup {F : Type} (summed : List (String × jsonValue F)) (key : String) :
    Option (jsonValue F) :=
  (summed.find? (fun kv => kv.1 = key)).map Prod.snd

/-- A map write `summed[key] = value`. -/
def summaryStore {F : Type} (summed : List (String × jsonValue F)) (key : String)
    (value : jsonValue F) : List (String × jsonValue F) :=
  if summed.any (fun kv => kv.1 = key) then
    summed.map (fun kv => if kv.1 = key then (kv.1, value) else kv)
  else summed ++ [(key, value)]

/-- The inner loop of `HandleStats`:
`summedValue := 0.0; for _, v := range floats { summedValue += v }`. -/
def sumFloats {F : Type} [Zero F] [Add F] (floats : List F) : F :=
  floats.foldl (fun summedValue v => summedValue + v) 0

/-- The function `HandleStats` up to the map `summed` it hands to the JSON
encoder (encoding and writing the response are not modelled). -/
def HandleStats {F : Type} [Zero F] [Add F] [Mul F] [Div F] [OfNat F 1000] [OfNat F 24]
    [DecidableEq F] (statistics : stats F) : Option (List (String × jsonValue F)) :=
  match generateMapFromStats statistics.PerHour 0 24 with
  | none => none
  | some histrical =>
    -- sum them up
    let summed := histrical.foldl
      (fun summed kv => summaryStore summed kv.1 (jsonValue.number (sumFloats kv.2))) []
    -- don't forget to divide by number of elements in returned slice
    let summed :=
      match summaryLookup summed "avg_processing_time" with
      | some (jsonValue.number flval) =>
        summaryStore summed "avg_processing_time" (jsonValue.number (flval / 24))
      | _ => summed
    some (summaryStore summed "stats_period" (jsonValue.text "24 hours"))

/-- What `HandleStatsHistory` answers: an error status set with `http.Error`, or
the map it hands to the JSON encoder. -/
inductive response (F : Type) where
  /-- The call `http.Error(w, _, code)`. -/
  | httpError (code : Nat)
  /-- The map `data`. -/
  | json (data : List (String × List F))

/-- The `switch timeUnitString` of `HandleStatsHistory`: the time unit and the
series, or nothing in the `default` case. -/
def selectTimeUnit {F : Type} (statistics : stats F) (timeUnitString : String) :
    Option (Int × periodicStats F) :=
  if timeUnitString = "seconds" then some (second, statistics.PerSecond)
  else if timeUnitString = "minutes" then some (minute, statistics.PerMinute)
  else if timeUnitString = "hours" then some (hour, statistics.PerHour)
  else if timeUnitString = "days" then some (hour * 24, statistics.PerDay)
  else none

/-- The start and end of the array in `HandleStatsHistory`: how many time units
have passed since `endTime` and since `startTime`, swapped if inverted. -/
def historyIndices (now startTime endTime timeUnit : Int) : Option (Int × Int) :=
  match durationDiv (timeSub now endTime) timeUnit,
      durationDiv (timeSub now startTime) timeUnit with
  | some start, some end_ =>
    -- swap them around if they are inverted
    if start > end_ then some (end_, start) else some (start, end_)
  | _, _ => none

/-- The function `HandleStatsHistory`, with the clock reading `now` explicit.
The query parameters `start_time` and `end_time` are given by what `time.Parse`
makes of them (`none`: a parse error).  Encoding and writing the response are
not modelled. -/
def HandleStatsHistory {F : Type} [Zero F] [Mul F] [Div F] [OfNat F 1000] [DecidableEq F]
    (statistics : stats F) (now : Int) (timeUnitString : String)
    (startTime endTime : Option Int) : Option (response F) :=
  -- handle time unit and prepare our time window size
  match selectTimeUnit statistics timeUnitString with
  | none => some (response.httpError 400)
  | some (timeUnit, stats) =>
    -- parse start and end time
    match startTime with
    | none => some (response.httpError 400)
    | some startTime =>
      match endTime with
      | none => some (response.httpError 400)
      | some endTime =>
        -- check if start and time times are within supported time range
        let timeRange := wrapInt64 (timeUnit * statsHistoryElements)
        if startTime + timeRange < now then some (response.httpError 501)
        else if endTime + timeRange < now then some (response.httpError 501)
        else
          -- calculate start and end of our array
          match historyIndices now startTime endTime timeUnit with
          | none => none
          | some (start, end_) =>
            (generateMapFromStats stats start end_).map response.json

/-- The type `Reason`, an `int`. -/
abbrev Reason : Type := Int

/-- The constant `_Reason_name`. -/
def _Reason_name : String :=
  "NotFilteredNotFoundNotFilteredWhiteListNotFilteredErrorFilteredBlackListFilteredSafeBrowsingFilteredParentalFilteredInvalidFilteredSafeSearch"

/-- The table `_Reason_index`. -/
def _Reason_index : List Nat := [0, 19, 39, 55, 72, 92, 108, 123, 141]

/-- A Go slice expression `s[lo:hi]` on a string of one-byte characters: a
run-time fault unless `lo ≤ hi ≤ len(s)`. -/
def stringSlice (s : String) (lo hi : Nat) : Option String :=
  if lo ≤ hi ∧ hi ≤ s.length then some (String.mk ((s.data.drop lo).take (hi - lo))) else none

/-- The library function `strconv.FormatInt(i, 10)`: the decimal rendering. -/
def FormatInt10 (i : Int) : String := toString i

/-- The method `Reason.String`. -/
def Reason.String (i : Reason) : Option String :=
  if i < 0 ∨ i ≥ (_Reason_index.length : Int) - 1 then
    some ("Reason(" ++ FormatInt10 i ++ ")")
  else
    match _Reason_index[i.toNat]?, _Reason_index[i.toNat + 1]? with
    | some lo, some hi => stringSlice _Reason_name lo hi
    | _, _ => none

/-- The eight names of the reasons, in the order of their values. -/
def reasonNames : List String :=
  ["NotFilteredNotFound", "NotFilteredWhiteList", "NotFilteredError", "FilteredBlackList",
   "FilteredSafeBrowsing", "FilteredParental", "FilteredInvalid", "FilteredSafeSearch"]

/-- A per-hour series, last rotated at time 0, whose only metric
`requests_total` holds 1 in bucket 24 (one request, 24 rotations ago) and 0
elsewhere. -/
def dayOldRequestSeries : periodicStats ℚ :=
  { Entries := (statsEntries.empty ℚ).write "requests_total"
      (Function.update (zeroBuckets ℚ) 24 1)
    period := hour
    LastRotate := 0 }

/-- The statistics whose per-hour series is `dayOldRequestSeries`, the other
three being empty. -/
def dayOldRequestStats : stats ℚ :=
  { PerSecond := initPeriodicStats ℚ 0 second
    PerMinute := initPeriodicStats ℚ 0 minute
    PerHour := dayOldRequestSeries
    PerDay := initPeriodicStats ℚ 0 (hour * 24) }

/-- The struct `filter` of `config.go` (package `main`), without its fields
`contents` and `LastUpdated`. -/
structure filter where
  /-- Auto-assigned when the filter is added (see `NextFilterId`). -/
  ID : Int
  /-- The address of the filter list. -/
  URL : String
  /-- The name of the filter. -/
  Name : String
  /-- Whether the filter is enabled. -/
  Enabled : Bool
  /-- The number of rules. -/
  RulesCount : Int

/-- The last loop of `parseConfig`, on the global `NextFilterId` and the slice
`config.Filters`:
`for i := range config.Filters { if NextFilterId < config.Filters[i].ID {
NextFilterId = config.Filters[i].ID + 1 } }`.  The result is `NextFilterId`
after the loop. -/
def parseConfigNextFilterId (NextFilterId : Int) (Filters : List filter) : Int :=
  Filters.foldl
    (fun NextFilterId f => if NextFilterId < f.ID then wrapInt64 (f.ID + 1) else NextFilterId)
    NextFilterId

/-- An enabled filter with the given ID, as read from the configuration file. -/
def filterWithID (id : Int) : filter :=
  { ID := id, URL := "https://example.org/filter.txt", Name := "example", Enabled := true,
    RulesCount := 0 }

/-! ## Theorems -/

/-! ### Durations -/

theorem validPeriod_second : validPeriod second := by
  unfold validPeriod second maxDuration; norm_num

theorem validPeriod_minute : validPeriod minute := by
  unfold validPeriod minute second maxDuration; norm_num

theorem validPeriod_hour : validPeriod hour := by
  unfold validPeriod hour minute second maxDuration; norm_num

theorem validPeriod_day : validPeriod (hour * 24) := by
  unfold validPeriod hour minute second maxDuration; norm_num

theorem wrapInt64_of_range {x : Int} (h1 : -(2 ^ 63) ≤ x) (h2 : x < 2 ^ 63) : wrapInt64 x = x := by
  unfold wrapInt64; omega

theorem timeSub_of_range {t u : Int} (h1 : 0 ≤ t - u) (h2 : t - u ≤ maxDuration) :
    timeSub t u = t - u := by
  unfold timeSub
  have : minDuration < 0 := by unfold minDuration; norm_num
  rw [if_neg (by omega), if_neg (by omega)]

theorem timeSub_of_large {t u : Int} (h : maxDuration < t - u) : timeSub t u = maxDuration := by
  unfold timeSub
  have : minDuration < 0 := by unfold minDuration; norm_num
  have : 0 < maxDuration := by unfold maxDuration; norm_num
  rw [if_neg (by omega), if_pos (by omega)]

/-- Inside the retained history the code's quotient is the floor quotient. -/
theorem durationDiv_inside {period t u : Int} (hp : validPeriod period) (h0 : u ≤ t)
    (hk : (t - u).fdiv period < statsHistoryElements) :
    durationDiv (timeSub t u) period = some ((t - u).fdiv period) := by
  obtain ⟨hpos, hfit⟩ := hp
  rw [Int.fdiv_eq_ediv _ hpos.le] at hk ⊢
  have h61 : (statsHistoryElements : Int) = 61 := rfl
  rw [h61] at hk hfit
  have hmax : maxDuration = 2 ^ 63 - 1 := rfl
  have hlt : t - u < 61 * period := Int.lt_mul_of_ediv_lt hpos hk
  have hd : 0 ≤ t - u := by omega
  unfold durationDiv
  rw [if_neg (by omega), timeSub_of_range hd (by omega), Int.tdiv_eq_ediv hd hpos.le]
  have h1 : 0 ≤ (t - u) / period := Int.ediv_nonneg hd hpos.le
  rw [wrapInt64_of_range (by omega) (by omega)]

/-- Outside the retained history the code's quotient is at least
`statsHistoryElements`. -/
theorem durationDiv_outside {period t u : Int} (hp : validPeriod period)
    (hk : (statsHistoryElements : Int) ≤ (t - u).fdiv period) :
    ∃ elapsed, durationDiv (timeSub t u) period = some elapsed ∧
      (statsHistoryElements : Int) ≤ elapsed := by
  obtain ⟨hpos, hfit⟩ := hp
  rw [Int.fdiv_eq_ediv _ hpos.le] at hk
  have h61 : (statsHistoryElements : Int) = 61 := rfl
  rw [h61] at hk hfit ⊢
  have hge : 61 * period ≤ t - u := (Int.le_ediv_iff_mul_le hpos).1 hk
  have hmax : maxDuration = 2 ^ 63 - 1 := rfl
  have hd : 0 ≤ timeSub t u ∧ timeSub t u ≤ maxDuration ∧ 61 * period ≤ timeSub t u := by
    by_cases hbig : t - u ≤ maxDuration
    · rw [timeSub_of_range (by omega) hbig]; omega
    · rw [timeSub_of_large (by omega)]; omega
  obtain ⟨hd0, hd1, hd2⟩ := hd
  refine ⟨wrapInt64 ((timeSub t u).tdiv period), ?_, ?_⟩
  · unfold durationDiv; rw [if_neg (by omega)]
  · rw [Int.tdiv_eq_ediv hd0 hpos.le]
    have h1 : (61 : Int) ≤ timeSub t u / period :=
      (Int.le_ediv_iff_mul_le hpos).2 hd2
    have h2 : timeSub t u / period ≤ timeSub t u := Int.ediv_le_self _ hd0
    rw [wrapInt64_of_range (by omega) (by omega)]
    exact h1

/-! ### The bucketed series -/

theorem arrayIndex_coe (k : Fin statsHistoryElements) : arrayIndex (k : Int) = some k := by
  unfold arrayIndex
  have h : 0 ≤ (k : Int) ∧ (k : Int) < statsHistoryElements := by
    have := k.isLt
    omega
  rw [dif_pos h]
  simp

theorem read_write_same {F : Type} [Zero F] (e : statsEntries F) (name : String)
    (values : Buckets F) : (e.write name values).read name = values := by
  simp [statsEntries.read, statsEntries.write]

theorem write_other {F : Type} (e : statsEntries F) (name other : String)
    (values : Buckets F) (h : other ≠ name) : e.write name values other = e other := by
  simp [statsEntries.write, h]

theorem read_write_other {F : Type} [Zero F] (e : statsEntries F) (name other : String)
    (values : Buckets F) (h : other ≠ name) : (e.write name values).read other = e.read other := by
  simp [statsEntries.read, statsEntries.write, h]

theorem read_absent {F : Type} [Zero F] (e : statsEntries F) (name : String)
    (h : e name = none) (j : Fin statsHistoryElements) : e.read name j = 0 := by
  simp [statsEntries.read, h, zeroBuckets]

/-- Inside the retained history `Inc` writes the updated array back. -/
theorem Inc_inside {F : Type} [Zero F] [One F] [Add F] (p : periodicStats F)
    (now when : Int) (name : String) (k : Fin statsHistoryElements)
    (hp : validPeriod p.period) (hwhen : when ≤ now)
    (hk : (now - when).fdiv p.period = (k : Int)) :
    p.Inc now name when = some { p with Entries := (p.Entries.write name
      (Function.update (p.Entries.read name) k (p.Entries.read name k + 1))) } := by
  have hlt : (now - when).fdiv p.period < statsHistoryElements := by
    rw [hk]; have := k.isLt; omega
  unfold periodicStats.Inc timeSince
  rw [durationDiv_inside hp hwhen hlt, hk]
  simp only
  rw [if_neg (by have := k.isLt; omega), arrayIndex_coe]

/-- C1: inside the retained history (`when ≤ now` and
`k = floor((now - when) / period) < 61`) `Inc name when` returns normally, adds
exactly 1 to bucket `k` of `name` (an absent name counting as the all-zero
array, and being present afterwards), and leaves every other bucket of that
name, every other name, `period` and `LastRotate` unchanged. -/
theorem C1_Inc_adds_one {F : Type} [Zero F] [One F] [Add F] (p : periodicStats F)
    (now when : Int) (name : String) (k : Fin statsHistoryElements)
    (hp : validPeriod p.period) (hwhen : when ≤ now)
    (hk : (now - when).fdiv p.period = (k : Int)) :
    ∃ q, p.Inc now name when = some q ∧
      q.Entries.read name k = p.Entries.read name k + 1 ∧
      (∀ j, j ≠ k → q.Entries.read name j = p.Entries.read name j) ∧
      (p.Entries name = none →
        ∀ j, q.Entries.read name j = if j = k then 0 + 1 else 0) ∧
      (q.Entries name).isSome = true ∧
      (∀ other, other ≠ name → q.Entries other = p.Entries other) ∧
      q.period = p.period ∧ q.LastRotate = p.LastRotate := by
  refine ⟨_, Inc_inside p now when name k hp hwhen hk, ?_, ?_, ?_, ?_, ?_, rfl, rfl⟩
  · simp only [read_write_same, Function.update_same]
  · intro j hj
    simp only [read_write_same, Function.update_noteq hj]
  · intro habsent j
    simp only [read_write_same]
    by_cases hj : j = k
    · subst hj
      simp only [Function.update_same, if_true, read_absent _ _ habsent]
    · simp only [Function.update_noteq hj, if_neg hj, read_absent _ _ habsent]
  · simp [statsEntries.write]
  · intro other hother
    exact write_other _ _ _ _ hother

/-- C1 at a fresh per-second series: an event two seconds old lands in
bucket 2. -/
theorem C1_Inc_adds_one_witness :
    ∃ q, (initPeriodicStats ℚ 0 second).Inc (5 * second) "requests_total" (3 * second) = some q ∧
      q.Entries.read "requests_total" 2 = 0 + 1 ∧
      q.Entries.read "requests_total" 1 = 0 ∧
      q.Entries "filtered_total" = none := by
  obtain ⟨q, hq, h1, h2, h3, -, h5, -, -⟩ :=
    C1_Inc_adds_one (initPeriodicStats ℚ 0 second) (5 * second) (3 * second) "requests_total" 2
      validPeriod_second (by decide) (by decide)
  refine ⟨q, hq, ?_, ?_, ?_⟩
  · rw [h1, read_absent _ _ rfl]
  · rw [h2 1 (by decide), read_absent _ _ rfl]
  · rw [h5 "filtered_total" (by decide)]; rfl

theorem count_ne_sum (name : String) : name ++ "_count" ≠ name ++ "_sum" := by
  intro h
  have hdata := congrArg String.data h
  simp only [String.data_append, List.append_cancel_left_eq] at hdata
  exact absurd hdata (by decide)

/-- Inside the retained history `Observe` writes both updated arrays back. -/
theorem Observe_inside {F : Type} [Zero F] [One F] [Add F] (p : periodicStats F)
    (now when : Int) (name : String) (value : F) (k : Fin statsHistoryElements)
    (hp : validPeriod p.period) (hwhen : when ≤ now)
    (hk : (now - when).fdiv p.period = (k : Int)) :
    p.Observe now name when value = some { p with Entries :=
      ((p.Entries.write (name ++ "_count")
          (Function.update (p.Entries.read (name ++ "_count")) k
            (p.Entries.read (name ++ "_count") k + 1))).write (name ++ "_sum")
        (Function.update (p.Entries.read (name ++ "_sum")) k
          (p.Entries.read (name ++ "_sum") k + value))) } := by
  have hlt : (now - when).fdiv p.period < statsHistoryElements := by
    rw [hk]; have := k.isLt; omega
  unfold periodicStats.Observe timeSince
  rw [durationDiv_inside hp hwhen hlt, hk]
  simp only
  rw [if_neg (by have := k.isLt; omega), arrayIndex_coe]
  simp only [read_write_other _ _ _ _ (count_ne_sum name).symm]

/-- C2: inside the retained history (`when ≤ now` and
`k = floor((now - when) / period) < 61`) `Observe name when value` returns
normally, adds exactly 1 to bucket `k` of `name_count` and exactly `value` to
bucket `k` of `name_sum`, and changes no other bucket of these two names, no
other name, and neither `period` nor `LastRotate`. -/
theorem C2_Observe_count_and_sum {F : Type} [Zero F] [One F] [Add F] (p : periodicStats F)
    (now when : Int) (name : String) (value : F) (k : Fin statsHistoryElements)
    (hp : validPeriod p.period) (hwhen : when ≤ now)
    (hk : (now - when).fdiv p.period = (k : Int)) :
    ∃ q, p.Observe now name when value = some q ∧
      q.Entries.read (name ++ "_count") k = p.Entries.read (name ++ "_count") k + 1 ∧
      q.Entries.read (name ++ "_sum") k = p.Entries.read (name ++ "_sum") k + value ∧
      (∀ j, j ≠ k →
        q.Entries.read (name ++ "_count") j = p.Entries.read (name ++ "_count") j ∧
        q.Entries.read (name ++ "_sum") j = p.Entries.read (name ++ "_sum") j) ∧
      (∀ other, other ≠ name ++ "_count" → other ≠ name ++ "_sum" →
        q.Entries other = p.Entries other) ∧
      q.period = p.period ∧ q.LastRotate = p.LastRotate := by
  refine ⟨_, Observe_inside p now when name value k hp hwhen hk, ?_, ?_, ?_, ?_, rfl, rfl⟩
  · simp only [read_write_other _ _ _ _ (count_ne_sum name), read_write_same,
      Function.update_same]
  · simp only [read_write_same, Function.update_same]
  · intro j hj
    simp only [read_write_other _ _ _ _ (count_ne_sum name), read_write_same,
      Function.update_noteq hj, and_self]
  · intro other h1 h2
    simp only [write_other _ _ _ _ h2, write_other _ _ _ _ h1]

/-- C2 at its scenario, in exact rational arithmetic: on a fresh series
`Observe("latency", now, 0.2)` then `Observe("latency", now, 0.4)` gives
`latency_count[0] = 2` and `latency_sum[0] = 0.6`. -/
theorem C2_Observe_count_and_sum_witness :
    ∃ q1 q2, (initPeriodicStats ℚ 7 second).Observe 7 "latency" 7 0.2 = some q1 ∧
      q1.Observe 7 "latency" 7 0.4 = some q2 ∧
      q2.Entries.read "latency_count" 0 = 2 ∧
      q2.Entries.read "latency_sum" 0 = 0.6 := by
  obtain ⟨q1, hq1, hc1, hs1, -, -, hper, -⟩ :=
    C2_Observe_count_and_sum (initPeriodicStats ℚ 7 second) 7 7 "latency" 0.2 0
      validPeriod_second (by decide) (by decide)
  obtain ⟨q2, hq2, hc2, hs2, -, -, -, -⟩ :=
    C2_Observe_count_and_sum q1 7 7 "latency" 0.4 0
      (by rw [hper]; exact validPeriod_second) (by decide) (by rw [hper]; decide)
  refine ⟨q1, q2, hq1, hq2, ?_, ?_⟩
  · have h : ("latency" ++ "_count" : String) = "latency_count" := by decide
    rw [h] at hc1 hc2
    rw [hc2, hc1, read_absent _ _ rfl]
    norm_num
  · have h : ("latency" ++ "_sum" : String) = "latency_sum" := by decide
    rw [h] at hs1 hs2
    rw [hs2, hs1, read_absent _ _ rfl]
    norm_num

/-- C3: an event at least 61 whole periods old is dropped: `Inc` and `Observe`
return normally and the series (every bucket of every name, the set of names,
`period`, `LastRotate`) is exactly what it was. -/
theorem C3_outside_history_dropped {F : Type} [Zero F] [One F] [Add F] (p : periodicStats F)
    (now when : Int) (name : String) (value : F)
    (hp : validPeriod p.period)
    (hk : (statsHistoryElements : Int) ≤ (now - when).fdiv p.period) :
    p.Inc now name when = some p ∧ p.Observe now name when value = some p := by
  obtain ⟨elapsed, he, hge⟩ := durationDiv_outside hp hk
  constructor
  · unfold periodicStats.Inc timeSince
    rw [he]
    simp only
    rw [if_pos hge]
  · unfold periodicStats.Observe timeSince
    rw [he]
    simp only
    rw [if_pos hge]

/-- C3 at a per-second series: an event exactly 61 seconds old is dropped. -/
theorem C3_outside_history_dropped_witness :
    (initPeriodicStats ℚ 0 second).Inc (61 * second) "requests_total" 0 =
        some (initPeriodicStats ℚ 0 second) ∧
      (initPeriodicStats ℚ 0 second).Observe (61 * second) "requests_total" 0 0.2 =
        some (initPeriodicStats ℚ 0 second) :=
  C3_outside_history_dropped (initPeriodicStats ℚ 0 second) (61 * second) 0 "requests_total"
    0.2 validPeriod_second (by decide)

/-! ### Rotation -/

/-- Before the last rotation the code's quotient is not positive. -/
theorem durationDiv_before {period t u : Int} (hp : validPeriod period) (h : t - u < 0) :
    ∃ rotations, durationDiv (timeSub t u) period = some rotations ∧ rotations ≤ 0 := by
  obtain ⟨hpos, hfit⟩ := hp
  have hmin : minDuration = -(2 ^ 63) := rfl
  have hmax : maxDuration = 2 ^ 63 - 1 := rfl
  have hd : minDuration ≤ timeSub t u ∧ timeSub t u < 0 := by
    unfold timeSub
    split_ifs <;> omega
  obtain ⟨hd0, hd1⟩ := hd
  refine ⟨wrapInt64 ((timeSub t u).tdiv period), ?_, ?_⟩
  · unfold durationDiv; rw [if_neg (by omega)]
  · have hneg : (timeSub t u).tdiv period = -((-(timeSub t u)) / period) := by
      rw [← Int.tdiv_eq_ediv (by omega) hpos.le, Int.neg_tdiv, Int.neg_neg]
    have h1 : 0 ≤ (-(timeSub t u)) / period := Int.ediv_nonneg (by omega) hpos.le
    have h2 : (-(timeSub t u)) / period ≤ -(timeSub t u) := Int.ediv_le_self _ (by omega)
    rw [hneg, wrapInt64_of_range (by omega) (by omega)]
    omega

theorem foldl_update_apply {n : Nat} {F : Type} (g : Fin n → F) (l : List (Fin n))
    (init : Fin n → F) (j : Fin n) :
    l.foldl (fun newValues i => Function.update newValues i (g i)) init j =
      if j ∈ l then g j else init j := by
  induction l generalizing init with
  | nil => simp
  | cons a l ih =>
    rw [List.foldl_cons, ih]
    by_cases hjl : j ∈ l
    · simp [hjl]
    · by_cases hja : j = a
      · subst hja; simp [hjl]
      · simp [hjl, hja, Function.update_noteq hja]

/-- The inner loop of `statsRotate` in closed form. -/
theorem rotateValues_apply {F : Type} [Zero F] (values : Buckets F)
    (j : Fin statsHistoryElements) :
    rotateValues values j =
      if 1 ≤ j.val then values ⟨j.val - 1, by have := j.isLt; omega⟩ else 0 := by
  unfold rotateValues
  rw [foldl_update_apply (fun i : Fin statsHistoryElements =>
    values ⟨i.val - 1, by have := i.isLt; omega⟩)]
  simp [List.mem_filter, List.mem_finRange, zeroBuckets]

/-- Rotating an array `r` times in closed form. -/
theorem rotateValues_iterate {F : Type} [Zero F] (r : Nat) (values : Buckets F)
    (j : Fin statsHistoryElements) :
    (rotateValues^[r] values) j =
      if r ≤ j.val then values ⟨j.val - r, by have := j.isLt; omega⟩ else 0 := by
  induction r generalizing j with
  | zero => simp
  | succ r ih =>
    rw [Function.iterate_succ_apply', rotateValues_apply]
    by_cases h1 : 1 ≤ j.val
    · rw [if_pos h1, ih]
      by_cases h2 : r + 1 ≤ j.val
      · rw [if_pos h2, if_pos (by simp only; omega)]
        congr 1
        apply Fin.ext
        simp only
        omega
      · rw [if_neg h2, if_neg (by simp only; omega)]
    · rw [if_neg h1, if_neg (by omega)]

theorem rotateEntries_iterate {F : Type} [Zero F] (r : Nat) (e : statsEntries F)
    (key : String) : (rotateEntries^[r] e) key = (e key).map (rotateValues^[r]) := by
  induction r with
  | zero => simp
  | succ r ih =>
    rw [Function.iterate_succ_apply']
    show ((rotateEntries^[r] e) key).map rotateValues = _
    rw [ih, Option.map_map]
    congr 1
    funext v
    simp [Function.iterate_succ_apply']

/-- Reading a name after `r` rotations of the map. -/
theorem read_rotateEntries_iterate {F : Type} [Zero F] (r : Nat) (e : statsEntries F)
    (name : String) (j : Fin statsHistoryElements) :
    (rotateEntries^[r] e).read name j =
      if r ≤ j.val then e.read name ⟨j.val - r, by have := j.isLt; omega⟩ else 0 := by
  unfold statsEntries.read
  rw [rotateEntries_iterate]
  cases e name with
  | none => simp [zeroBuckets]
  | some values => simp [rotateValues_iterate]

/-- What `statsRotate` does, by the number of whole periods since the last
rotation. -/
theorem statsRotate_eq {F : Type} [Zero F] (p : periodicStats F) (now : Int)
    (hp : validPeriod p.period) :
    p.statsRotate now = some
      { Entries := rotateEntries^[(min ((now - p.LastRotate).fdiv p.period) 61).toNat] p.Entries
        period := p.period
        LastRotate := if 1 ≤ (now - p.LastRotate).fdiv p.period then now else p.LastRotate } := by
  have hpos := hp.1
  have h61 : (statsHistoryElements : Int) = 61 := rfl
  unfold periodicStats.statsRotate
  by_cases hneg : now - p.LastRotate < 0
  · obtain ⟨rotations, hr, hle⟩ := durationDiv_before hp hneg
    have hf : (now - p.LastRotate).fdiv p.period < 0 := by
      rw [Int.fdiv_eq_ediv _ hpos.le]
      exact Int.ediv_neg' hneg hpos
    rw [hr]
    simp only [h61]
    rw [if_neg (by omega), if_neg (by omega), if_neg (by omega)]
    have h1 : rotations.toNat = 0 := by omega
    have h2 : (min ((now - p.LastRotate).fdiv p.period) 61).toNat = 0 := by omega
    rw [h1, h2]
  · by_cases hin : (now - p.LastRotate).fdiv p.period < statsHistoryElements
    · rw [durationDiv_inside hp (by omega) hin]
      rw [h61] at hin
      simp only [h61]
      rw [if_neg (by omega)]
      have h2 : min ((now - p.LastRotate).fdiv p.period) 61 =
          (now - p.LastRotate).fdiv p.period := by omega
      rw [h2]
      by_cases h0 : 1 ≤ (now - p.LastRotate).fdiv p.period
      · rw [if_pos h0, if_pos (by omega)]
      · rw [if_neg h0, if_neg (by omega)]
    · obtain ⟨rotations, hr, hge⟩ :=
        durationDiv_outside (t := now) (u := p.LastRotate) hp (by omega)
      rw [hr]
      rw [h61] at hin hge
      simp only [h61]
      have h2 : min ((now - p.LastRotate).fdiv p.period) 61 = 61 := by omega
      have hf : 1 ≤ (now - p.LastRotate).fdiv p.period := by omega
      rw [h2, if_pos hf]
      by_cases h3 : rotations > 61
      · rw [if_pos h3, if_pos (by omega)]
      · have h4 : rotations = 61 := by omega
        rw [if_neg h3, h4, if_pos (by omega)]

/-- C4: with `r = min(floor((now - LastRotate) / period), 61)` and `r ≥ 0`,
`statsRotate now` returns normally and keeps the set of metric names; every
metric present gets `new[i] = old[i - r]` for `r ≤ i ≤ 60` and `new[i] = 0` for
`i < r`.  In particular, when 61 or more periods have elapsed every bucket of
every metric is 0. -/
theorem C4_statsRotate_shifts {F : Type} [Zero F] (p : periodicStats F) (now : Int) (r : Nat)
    (hp : validPeriod p.period)
    (hr : (r : Int) = min ((now - p.LastRotate).fdiv p.period) 61) :
    ∃ q, p.statsRotate now = some q ∧
      (∀ name, p.Entries name = none → q.Entries name = none) ∧
      (∀ name old, p.Entries name = some old →
        ∃ new, q.Entries name = some new ∧
          (∀ i : Fin statsHistoryElements, ∀ h : r ≤ i.val,
            new i = old ⟨i.val - r, by have := i.isLt; omega⟩) ∧
          (∀ i : Fin statsHistoryElements, i.val < r → new i = 0) ∧
          ((61 : Int) ≤ (now - p.LastRotate).fdiv p.period →
            ∀ i : Fin statsHistoryElements, new i = 0)) := by
  have hr2 : (min ((now - p.LastRotate).fdiv p.period) 61).toNat = r := by omega
  refine ⟨_, statsRotate_eq p now hp, ?_, ?_⟩
  · intro name hname
    simp only [rotateEntries_iterate, hname, Option.map_none']
  · intro name old hname
    refine ⟨rotateValues^[r] old, ?_, ?_, ?_, ?_⟩
    · simp only [rotateEntries_iterate, hname, Option.map_some', hr2]
    · intro i h
      rw [rotateValues_iterate, if_pos h]
    · intro i h
      rw [rotateValues_iterate, if_neg (by omega)]
    · intro h61 i
      have hi : i.val < 61 := i.isLt
      rw [rotateValues_iterate, if_neg (by omega)]

/-- C4 at a per-second series whose metric holds `i` in bucket `i`: two seconds
after the last rotation the buckets have moved by two. -/
theorem C4_statsRotate_shifts_witness :
    ∃ q new, periodicStats.statsRotate
        { Entries := (statsEntries.empty ℚ).write "requests_total" (fun i => (i.val : ℚ))
          period := second
          LastRotate := 0 } (2 * second) = some q ∧
      q.Entries "requests_total" = some new ∧
      new 5 = 3 ∧ new 60 = 58 ∧ new 1 = 0 ∧ new 0 = 0 ∧
      q.Entries "filtered_total" = none := by
  obtain ⟨q, hq, habsent, hpresent⟩ := C4_statsRotate_shifts
    { Entries := (statsEntries.empty ℚ).write "requests_total" (fun i => (i.val : ℚ))
      period := second
      LastRotate := 0 } (2 * second) 2 validPeriod_second (by decide)
  obtain ⟨new, hnew, hshift, hzero, -⟩ := hpresent "requests_total" (fun i => (i.val : ℚ)) rfl
  refine ⟨q, new, hq, hnew, ?_, ?_, ?_, ?_, habsent "filtered_total" rfl⟩
  · rw [hshift 5 (by decide)]
    show ((3 : Nat) : ℚ) = 3
    norm_num
  · rw [hshift 60 (by decide)]
    show ((58 : Nat) : ℚ) = 58
    norm_num
  · exact hzero 1 (by decide)
  · exact hzero 0 (by decide)

/-- C5: `statsRotate now` returns normally and never changes `period`; it sets
`LastRotate` to `now` when `floor((now - LastRotate) / period) ≥ 1`; when less
than one whole period has elapsed (also when `now` is not after `LastRotate`)
the series is unchanged; and calling it again with the same `now` changes
nothing. -/
theorem C5_statsRotate_LastRotate {F : Type} [Zero F] (p : periodicStats F) (now : Int)
    (hp : validPeriod p.period) :
    ∃ q, p.statsRotate now = some q ∧
      q.period = p.period ∧
      (1 ≤ (now - p.LastRotate).fdiv p.period → q.LastRotate = now) ∧
      ((now - p.LastRotate).fdiv p.period < 1 → q = p) ∧
      q.statsRotate now = some q := by
  have hnoop : ∀ s : periodicStats F, validPeriod s.period →
      (now - s.LastRotate).fdiv s.period < 1 → s.statsRotate now = some s := by
    intro s hs hlt
    rw [statsRotate_eq s now hs, if_neg (by omega)]
    have h0 : (min ((now - s.LastRotate).fdiv s.period) 61).toNat = 0 := by omega
    rw [h0]
    rfl
  by_cases h : 1 ≤ (now - p.LastRotate).fdiv p.period
  · refine ⟨_, statsRotate_eq p now hp, rfl, ?_, ?_, ?_⟩
    · intro _
      rw [if_pos h]
    · intro hlt
      omega
    · refine hnoop (periodicStats.mk _ _ _) hp ?_
      simp only
      rw [if_pos h, Int.sub_self, Int.fdiv_eq_ediv _ hp.1.le, Int.zero_ediv]
      decide
  · refine ⟨p, hnoop p hp (by omega), rfl, ?_, ?_, hnoop p hp (by omega)⟩
    · intro h1
      omega
    · intro _
      rfl

/-- C5 at a per-second series: half a second after the last rotation nothing
changes, one second after it `LastRotate` moves. -/
theorem C5_statsRotate_LastRotate_witness :
    (∃ q, (initPeriodicStats ℚ 0 second).statsRotate 500000000 = some q ∧
      q = initPeriodicStats ℚ 0 second) ∧
    (∃ q, (initPeriodicStats ℚ 0 second).statsRotate second = some q ∧
      q.LastRotate = second ∧ q.period = second) := by
  obtain ⟨q1, hq1, -, -, hsame, -⟩ :=
    C5_statsRotate_LastRotate (initPeriodicStats ℚ 0 second) 500000000 validPeriod_second
  obtain ⟨q2, hq2, hper, hlast, -, -⟩ :=
    C5_statsRotate_LastRotate (initPeriodicStats ℚ 0 second) second validPeriod_second
  exact ⟨⟨q1, hq1, hsame (by decide)⟩, ⟨q2, hq2, hlast (by decide), hper⟩⟩

/-- Rotation counts that agree, or that are both at least the array length,
give the same map. -/
theorem rotateEntries_iterate_congr {F : Type} [Zero F] (m n : Nat) (e : statsEntries F)
    (h : m = n ∨ (61 ≤ m ∧ 61 ≤ n)) : rotateEntries^[m] e = rotateEntries^[n] e := by
  rcases h with h | ⟨hm, hn⟩
  · rw [h]
  · funext key
    rw [rotateEntries_iterate, rotateEntries_iterate]
    congr 1
    funext values j
    have hj : j.val < 61 := j.isLt
    rw [rotateValues_iterate, rotateValues_iterate, if_neg (by omega), if_neg (by omega)]

theorem fdiv_add_le {period x y : Int} (hpos : 0 < period) :
    x.fdiv period + y.fdiv period ≤ (x + y).fdiv period := by
  rw [Int.fdiv_eq_ediv _ hpos.le, Int.fdiv_eq_ediv _ hpos.le, Int.fdiv_eq_ediv _ hpos.le]
  apply Int.le_ediv_of_mul_le hpos
  have hx := Int.ediv_mul_le x (Int.ne_of_gt hpos)
  have hy := Int.ediv_mul_le y (Int.ne_of_gt hpos)
  rw [Int.add_mul]
  omega

theorem fdiv_nonneg {period x : Int} (hpos : 0 < period) (hx : 0 ≤ x) : 0 ≤ x.fdiv period := by
  rw [Int.fdiv_eq_ediv _ hpos.le]
  exact Int.ediv_nonneg hx hpos.le

/-- C6, as the code has it: for `LastRotate ≤ t1 ≤ t2`, `statsRotate t1`
followed by `statsRotate t2` leaves the same `Entries` as `statsRotate t2`
alone whenever the first call does not rotate, or the whole periods of the two
steps add up to the whole periods of the total
(`floor((t1 - LastRotate) / period) + floor((t2 - t1) / period) =
floor((t2 - LastRotate) / period)`, as when `t1 - LastRotate` is a whole
multiple of `period`), or the two steps together make 61 or more rotations. -/
theorem C6_statsRotate_twice {F : Type} [Zero F] (p : periodicStats F) (t1 t2 : Int)
    (hp : validPeriod p.period) (hL : p.LastRotate ≤ t1) (h12 : t1 ≤ t2)
    (hsum : (t1 - p.LastRotate).fdiv p.period < 1 ∨
      (t1 - p.LastRotate).fdiv p.period + (t2 - t1).fdiv p.period =
        (t2 - p.LastRotate).fdiv p.period ∨
      61 ≤ (t1 - p.LastRotate).fdiv p.period + (t2 - t1).fdiv p.period) :
    ∃ q1 q12 q2, p.statsRotate t1 = some q1 ∧ q1.statsRotate t2 = some q12 ∧
      p.statsRotate t2 = some q2 ∧ q12.Entries = q2.Entries := by
  have ha := fdiv_nonneg hp.1 (show 0 ≤ t1 - p.LastRotate by omega)
  have hb := fdiv_nonneg hp.1 (show 0 ≤ t2 - t1 by omega)
  have hc := fdiv_add_le (x := t1 - p.LastRotate) (y := t2 - t1) hp.1
  have hxy : t1 - p.LastRotate + (t2 - t1) = t2 - p.LastRotate := by omega
  rw [hxy] at hc
  refine ⟨_, _, _, statsRotate_eq p t1 hp, statsRotate_eq (periodicStats.mk _ _ _) t2 hp,
    statsRotate_eq p t2 hp, ?_⟩
  simp only
  by_cases h1 : 1 ≤ (t1 - p.LastRotate).fdiv p.period
  · rw [if_pos h1, ← Function.iterate_add_apply]
    apply rotateEntries_iterate_congr
    omega
  · rw [if_neg h1]
    have h0 : (min ((t1 - p.LastRotate).fdiv p.period) 61).toNat = 0 := by omega
    rw [h0]
    rfl

/-- C6 as amended, at `oneRequestSeries`: rotating at 1 s and then at 2.5 s
gives the same buckets as rotating at 2.5 s alone. -/
theorem C6_statsRotate_twice_witness :
    ∃ q1 q12 q2, oneRequestSeries.statsRotate second = some q1 ∧
      q1.statsRotate 2500000000 = some q12 ∧
      oneRequestSeries.statsRotate 2500000000 = some q2 ∧ q12.Entries = q2.Entries :=
  C6_statsRotate_twice oneRequestSeries second 2500000000 validPeriod_second
    (by decide) (by decide) (by decide)

/-- C6 fails as stated: on `oneRequestSeries` (period 1 s, last rotated at 0),
rotating at 1.5 s and then at 2 s moves the request to bucket 1, rotating at
2 s alone moves it to bucket 2. -/
theorem C6_statsRotate_twice_counterexample :
    oneRequestSeries.LastRotate ≤ 1500000000 ∧ (1500000000 : Int) ≤ 2000000000 ∧
    ∃ q1 q12 q2, oneRequestSeries.statsRotate 1500000000 = some q1 ∧
      q1.statsRotate 2000000000 = some q12 ∧
      oneRequestSeries.statsRotate 2000000000 = some q2 ∧
      q12.Entries.read "requests_total" 1 = 1 ∧
      q2.Entries.read "requests_total" 1 = 0 ∧
      q12.Entries ≠ q2.Entries := by
  have h1 : (min ((1500000000 - oneRequestSeries.LastRotate).fdiv oneRequestSeries.period)
      61).toNat = 1 := by decide
  have h2 : (min ((2000000000 - (1500000000 : Int)).fdiv oneRequestSeries.period)
      61).toNat = 0 := by decide
  have h3 : (min ((2000000000 - oneRequestSeries.LastRotate).fdiv oneRequestSeries.period)
      61).toNat = 2 := by decide
  have h4 : (1 : Int) ≤ (1500000000 - oneRequestSeries.LastRotate).fdiv
      oneRequestSeries.period := by decide
  have hv : validPeriod oneRequestSeries.period := validPeriod_second
  have r12 : ∀ j : Fin statsHistoryElements,
      (rotateEntries^[0] (rotateEntries^[1] oneRequestSeries.Entries)).read
        "requests_total" j =
      if 1 ≤ j.val then
        oneRequestSeries.Entries.read "requests_total" ⟨j.val - 1, by have := j.isLt; omega⟩
      else 0 := by
    intro j
    rw [Function.iterate_zero_apply, read_rotateEntries_iterate]
  have r2 : ∀ j : Fin statsHistoryElements,
      (rotateEntries^[2] oneRequestSeries.Entries).read "requests_total" j =
      if 2 ≤ j.val then
        oneRequestSeries.Entries.read "requests_total" ⟨j.val - 2, by have := j.isLt; omega⟩
      else 0 := fun j => read_rotateEntries_iterate 2 _ _ j
  have e12 : (rotateEntries^[0] (rotateEntries^[1] oneRequestSeries.Entries)).read
      "requests_total" 1 = 1 := by
    rw [r12 1, if_pos (by decide)]
    rfl
  have e2 : (rotateEntries^[2] oneRequestSeries.Entries).read "requests_total" 1 = 0 := by
    rw [r2 1, if_neg (by decide)]
  refine ⟨by decide, by decide, _, _, _, statsRotate_eq oneRequestSeries 1500000000 hv,
    statsRotate_eq (periodicStats.mk _ _ _) 2000000000 hv,
    statsRotate_eq oneRequestSeries 2000000000 hv, ?_, ?_, ?_⟩
  · simp only [if_pos h4, h1, h2]
    exact e12
  · simp only [h3]
    exact e2
  · simp only [if_pos h4, h1, h2, h3]
    intro heq
    have hne : (1 : ℚ) ≠ 0 := one_ne_zero
    apply hne
    rw [← e12, ← e2, heq]

/-! ### Increments followed by one rotation -/

theorem fdiv_eq_zero_le {period x : Int} (hpos : 0 < period) (h : x.fdiv period = 0) :
    0 ≤ x := by
  by_contra hneg
  rw [Int.fdiv_eq_ediv _ hpos.le] at h
  have := Int.ediv_neg' (show x < 0 by omega) hpos
  omega

/-- A run of increments in the current period adds their number to bucket 0. -/
theorem IncRepeatedly_current {F : Type} [AddMonoidWithOne F] (name : String)
    (calls : List (Int × Int)) (p : periodicStats F) (hp : validPeriod p.period)
    (hcalls : ∀ c ∈ calls, (c.1 - c.2).fdiv p.period = 0) :
    ∃ q, IncRepeatedly p name calls = some q ∧
      q.Entries.read name 0 = p.Entries.read name 0 + (calls.length : F) ∧
      q.period = p.period ∧ q.LastRotate = p.LastRotate := by
  induction calls generalizing p with
  | nil => exact ⟨p, rfl, by simp, rfl, rfl⟩
  | cons c rest ih =>
    obtain ⟨now, when⟩ := c
    have hc : (now - when).fdiv p.period = 0 := hcalls (now, when) (List.mem_cons_self _ _)
    have hle : when ≤ now := by
      have := fdiv_eq_zero_le hp.1 hc
      omega
    have hinc := Inc_inside p now when name 0 hp hle (by rw [hc]; rfl)
    obtain ⟨q, hq, hread, hper, hlast⟩ := ih
      { p with Entries := (p.Entries.write name
        (Function.update (p.Entries.read name) 0 (p.Entries.read name 0 + 1))) } hp
      (fun c hmem => hcalls c (List.mem_cons_of_mem _ hmem))
    refine ⟨q, ?_, ?_, hper, hlast⟩
    · simp only [IncRepeatedly, hinc]
      exact hq
    · have hcomm : (1 : F) + (rest.length : F) = (rest.length : F) + 1 := by
        rw [← Nat.cast_succ, Nat.succ_eq_add_one, Nat.add_comm, Nat.cast_add, Nat.cast_one]
      rw [hread, read_write_same, Function.update_same, List.length_cons, Nat.cast_succ,
        add_assoc, hcomm]

/-- C7: on a freshly initialised series, `n` calls `Inc name when`, each with
`when` in the current period (`floor((now - when) / period) = 0`) and no
rotation in between, leave `Entries[name][0] = n`; a following `statsRotate`
that performs exactly one rotation (`floor((now - LastRotate) / period) = 1`)
leaves `Entries[name][0] = 0` and `Entries[name][1] = n`. -/
theorem C7_increments_then_rotate {F : Type} [AddMonoidWithOne F] (t0 period : Int)
    (name : String) (calls : List (Int × Int)) (tr : Int)
    (hp : validPeriod period)
    (hcalls : ∀ c ∈ calls, (c.1 - c.2).fdiv period = 0)
    (hrot : (tr - t0).fdiv period = 1) :
    ∃ q r, IncRepeatedly (initPeriodicStats F t0 period) name calls = some q ∧
      q.Entries.read name 0 = (calls.length : F) ∧
      q.statsRotate tr = some r ∧
      r.Entries.read name 0 = 0 ∧
      r.Entries.read name 1 = (calls.length : F) := by
  obtain ⟨q, hq, hread, hper, hlast⟩ :=
    IncRepeatedly_current name calls (initPeriodicStats F t0 period) hp hcalls
  have hread0 : q.Entries.read name 0 = (calls.length : F) := by
    rw [hread, read_absent _ _ rfl, zero_add]
  have hper2 : q.period = period := hper
  have hlast2 : q.LastRotate = t0 := hlast
  have hone : (min ((tr - q.LastRotate).fdiv q.period) 61).toNat = 1 := by
    rw [hper2, hlast2, hrot]
    decide
  refine ⟨q, _, hq, hread0, statsRotate_eq q tr (by rw [hper2]; exact hp), ?_, ?_⟩
  · simp only [hone]
    rw [read_rotateEntries_iterate, if_neg (by decide)]
  · simp only [hone]
    rw [read_rotateEntries_iterate, if_pos (by decide)]
    exact hread0

/-- C7 at its scenario: 5 increments of `requests_total` on a fresh per-second
series give bucket 0 = 5; after `Rotate(now + 1s)` bucket 0 = 0 and
bucket 1 = 5. -/
theorem C7_increments_then_rotate_witness :
    ∃ q r, IncRepeatedly (initPeriodicStats ℚ 0 second) "requests_total"
        [(0, 0), (0, 0), (0, 0), (0, 0), (0, 0)] = some q ∧
      q.Entries.read "requests_total" 0 = 5 ∧
      q.statsRotate (0 + second) = some r ∧
      r.Entries.read "requests_total" 0 = 0 ∧
      r.Entries.read "requests_total" 1 = 5 := by
  obtain ⟨q, r, hq, h0, hr, hr0, hr1⟩ :=
    C7_increments_then_rotate (F := ℚ) 0 second "requests_total"
      [(0, 0), (0, 0), (0, 0), (0, 0), (0, 0)] (0 + second) validPeriod_second
      (by decide) (by decide)
  refine ⟨q, r, hq, ?_, hr, hr0, ?_⟩
  · rw [h0]; norm_num
  · rw [hr1]; norm_num

/-! ### The query engine -/

theorem arrayIndex_nat (m : Nat) (h : m < statsHistoryElements) :
    arrayIndex (m : Int) = some ⟨m, h⟩ :=
  arrayIndex_coe ⟨m, h⟩

/-- The loop of `getReversedSlice` from index `m`, `n` iterations, all inside
the array: the elements read are put in front of the slice, last read first. -/
theorem getReversedSliceLoop_spec {F : Type} (input : Buckets F) (n m : Nat) (output : List F)
    (hmn : m + n ≤ statsHistoryElements) :
    ∃ l, getReversedSliceLoop input n (m : Int) output = some l ∧
      l.length = n + output.length ∧
      (∀ j : Nat, ∀ hj : j < n,
        l[j]? = some (input ⟨m + n - 1 - j, by omega⟩)) ∧
      (∀ j : Nat, n ≤ j → l[j]? = output[j - n]?) := by
  induction n generalizing m output with
  | zero => exact ⟨output, rfl, by simp, fun j hj => absurd hj (by omega), fun j _ => by simp⟩
  | succ n ih =>
    obtain ⟨l, hl, hlen, hin, hout⟩ := ih (m + 1) (input ⟨m, by omega⟩ :: output) (by omega)
    refine ⟨l, ?_, ?_, ?_, ?_⟩
    · simp only [getReversedSliceLoop, arrayIndex_nat m (by omega)]
      exact hl
    · rw [hlen, List.length_cons]; omega
    · intro j hj
      by_cases hjn : j < n
      · rw [hin j hjn]
        congr 2
        apply Fin.ext
        simp only
        omega
      · have hje : j = n := by omega
        subst hje
        rw [hout j (le_refl _), Nat.sub_self, List.getElem?_cons_zero]
        congr 2
        apply Fin.ext
        simp only
        omega
    · intro j hj
      rw [hout j (by omega)]
      have h1 : j - n = (j - (n + 1)) + 1 := by omega
      rw [h1, List.getElem?_cons_succ]

/-- Inside the array `getReversedSlice` returns the inclusive sub-range
reversed. -/
theorem getReversedSlice_spec {F : Type} (input : Buckets F) (start end_ : Int)
    (h0 : 0 ≤ start) (h1 : start ≤ end_) (h2 : end_ ≤ 60) :
    ∃ output, getReversedSlice input start end_ = some output ∧
      (output.length : Int) = end_ - start + 1 ∧
      ∀ j : Nat, (j : Int) ≤ end_ - start →
        output[j]? = some (input ⟨(end_ - j).toNat, by show _ < 61; omega⟩) := by
  obtain ⟨m, rfl⟩ := Int.eq_ofNat_of_zero_le h0
  obtain ⟨e, rfl⟩ := Int.eq_ofNat_of_zero_le (h0.trans h1)
  have hn : ((e : Int) - (m : Int) + 1).toNat = e - m + 1 := by omega
  obtain ⟨l, hl, hlen, hin, -⟩ := getReversedSliceLoop_spec input (e - m + 1) m []
    (by show _ ≤ 61; omega)
  refine ⟨l, ?_, ?_, ?_⟩
  · unfold getReversedSlice
    rw [hn]
    exact hl
  · rw [hlen, List.length_nil]
    omega
  · intro j hj
    rw [hin j (by omega)]
    congr 2
    apply Fin.ext
    simp only
    omega

/-- C8: for `0 ≤ start ≤ end ≤ 60`, `getReversedSlice input start end` returns
normally a slice of length `end - start + 1` whose `j`-th element (0-based) is
`input[end - j]`: the inclusive sub-range reversed, no value altered. -/
theorem C8_getReversedSlice {F : Type} (input : Buckets F) (start end_ : Int)
    (h0 : 0 ≤ start) (h1 : start ≤ end_) (h2 : end_ ≤ 60) :
    ∃ output, getReversedSlice input start end_ = some output ∧
      (output.length : Int) = end_ - start + 1 ∧
      ∀ j : Nat, (j : Int) ≤ end_ - start →
        output[j]? = some (input ⟨(end_ - j).toNat, by show _ < 61; omega⟩) :=
  getReversedSlice_spec input start end_ h0 h1 h2

/-- C8 at the array holding `i` in bucket `i`: the slice of buckets 2 to 4 is
`[4, 3, 2]`. -/
theorem C8_getReversedSlice_witness :
    ∃ output, getReversedSlice (fun i : Fin statsHistoryElements => (i.val : ℚ)) 2 4 =
        some output ∧
      output.length = 3 ∧ output[0]? = some 4 ∧ output[1]? = some 3 ∧ output[2]? = some 2 := by
  obtain ⟨output, hout, hlen, hget⟩ :=
    C8_getReversedSlice (fun i : Fin statsHistoryElements => (i.val : ℚ)) 2 4
      (by decide) (by decide) (by decide)
  refine ⟨output, hout, by omega, ?_, ?_, ?_⟩
  · rw [hget 0 (by decide)]
    show some ((4 : Nat) : ℚ) = some 4
    norm_num
  · rw [hget 1 (by decide)]
    show some ((3 : Nat) : ℚ) = some 3
    norm_num
  · rw [hget 2 (by decide)]
    show some ((2 : Nat) : ℚ) = some 2
    norm_num

/-- The loop of `getReversedSlice` faults when it runs past the last bucket. -/
theorem getReversedSliceLoop_fault {F : Type} (input : Buckets F) (n m : Nat) (output : List F)
    (hm : m ≤ 61) (hmn : 61 < m + n) :
    getReversedSliceLoop input n (m : Int) output = none := by
  induction n generalizing m output with
  | zero => omega
  | succ n ih =>
    by_cases h61 : m = 61
    · subst h61
      simp [getReversedSliceLoop, arrayIndex]
    · have hlt : m < statsHistoryElements := by show m < 61; omega
      simp only [getReversedSliceLoop, arrayIndex_nat m hlt]
      exact ih (m + 1) _ (by omega) (by omega)

theorem clamp_range (value : Int) :
    0 ≤ clamp value 0 statsHistoryElements ∧ clamp value 0 statsHistoryElements ≤ 61 := by
  have h61 : (statsHistoryElements : Int) = 61 := rfl
  unfold clamp
  rw [h61]
  split_ifs <;> omega

theorem clamp_inside (value : Int) (h0 : 0 ≤ value) (h1 : value ≤ 61) :
    clamp value 0 statsHistoryElements = value := by
  have h61 : (statsHistoryElements : Int) = 61 := rfl
  unfold clamp
  rw [h61, if_neg (by omega), if_neg (by omega)]

/-- With the end index 61 every slice read of `generateMapFromStats` faults. -/
theorem getReversedSlice_fault {F : Type} (input : Buckets F) (start : Int) :
    getReversedSlice input (clamp start 0 statsHistoryElements) 61 = none := by
  obtain ⟨h0, h1⟩ := clamp_range start
  obtain ⟨m, hm⟩ := Int.eq_ofNat_of_zero_le h0
  rw [hm] at h1 ⊢
  unfold getReversedSlice
  exact getReversedSliceLoop_fault input _ m [] (by omega) (by omega)

/-- C9, the code at the failing input: `clamp` lets the index 61 through
(`clamp(61, 0, statsHistoryElements) = 61`), and with `end = 61`
`generateMapFromStats` reads `input[61]` of a 61-element array and faults,
whatever the series and the start index. -/
theorem C9_generateMapFromStats_reads_index_61 {F : Type} [Zero F] [Mul F] [Div F]
    [OfNat F 1000] [DecidableEq F] (stats : periodicStats F) (start : Int) :
    clamp 61 0 statsHistoryElements = 61 ∧ arrayIndex 61 = none ∧
      generateMapFromStats stats start 61 = none := by
  refine ⟨by decide, by decide, ?_⟩
  unfold generateMapFromStats
  simp only [clamp_inside 61 (by decide) (by decide), getReversedSlice_fault]

/-- The loop that fills `avgProcessingTime`, on slices of equal length, appends
the guarded quotient of every remaining position. -/
theorem avgProcessingTimeLoop_spec {F : Type} [Zero F] [Mul F] [Div F] [OfNat F 1000]
    [DecidableEq F] (count sum : List F) (hlen : sum.length = count.length) (n i : Nat)
    (acc : List F) (hin : i + n = count.length) :
    avgProcessingTimeLoop count sum n i acc = some (acc ++
      List.zipWith (fun c s => if c ≠ 0 then s / c * 1000 else 0)
        (count.drop i) (sum.drop i)) := by
  induction n generalizing i acc with
  | zero =>
    have h1 : count.drop i = [] := List.drop_eq_nil_of_le (by omega)
    simp [avgProcessingTimeLoop, h1]
  | succ n ih =>
    have hc : i < count.length := by omega
    have hs : i < sum.length := by omega
    simp only [avgProcessingTimeLoop, List.getElem?_eq_getElem hc, List.getElem?_eq_getElem hs]
    rw [ih (i + 1) _ (by omega), List.drop_eq_getElem_cons hc, List.drop_eq_getElem_cons hs,
      List.zipWith_cons_cons, List.append_assoc, List.singleton_append]

theorem elapsedTime_count_name {F : Type} [Zero F] :
    (elapsedTime F).name ++ "_count" = "request_duration_count" := by
  simp only [elapsedTime, newDNSHistogram]
  decide

theorem elapsedTime_sum_name {F : Type} [Zero F] :
    (elapsedTime F).name ++ "_sum" = "request_duration_sum" := by
  simp only [elapsedTime, newDNSHistogram]
  decide

/-- C10: for in-range `0 ≤ start ≤ end ≤ 60`, `generateMapFromStats` returns
normally; its `avg_processing_time` series has `end - start + 1` elements, as
many as each of the five other series, and at position `j` it holds
`sum_j / count_j * 1000` when `count_j` is non-zero and exactly 0 when `count_j`
is 0, where `count_j` and `sum_j` are bucket `end - j` of
`request_duration_count` and `request_duration_sum`.  The value does not depend
on what a division by zero would yield: `/` is an arbitrary operation here. -/
theorem C10_avg_processing_time {F : Type} [Zero F] [Mul F] [Div F] [OfNat F 1000]
    [DecidableEq F] (stats : periodicStats F) (start end_ : Int)
    (h0 : 0 ≤ start) (h1 : start ≤ end_) (h2 : end_ ≤ 60) :
    ∃ m avg, generateMapFromStats stats start end_ = some m ∧
      mapLookup m "avg_processing_time" = some avg ∧
      (avg.length : Int) = end_ - start + 1 ∧
      (∀ key ∈ ["dns_queries", "blocked_filtering", "replaced_safebrowsing",
          "replaced_safesearch", "replaced_parental"],
        ∃ series, mapLookup m key = some series ∧ series.length = avg.length) ∧
      ∀ j : Nat, (j : Int) ≤ end_ - start →
        avg[j]? = some
          (if stats.Entries.read "request_duration_count"
              ⟨(end_ - j).toNat, by show _ < 61; omega⟩ ≠ 0 then
            stats.Entries.read "request_duration_sum"
                ⟨(end_ - j).toNat, by show _ < 61; omega⟩ /
              stats.Entries.read "request_duration_count"
                ⟨(end_ - j).toNat, by show _ < 61; omega⟩ * 1000
          else 0) := by
  obtain ⟨count, hcount, hcl, hcget⟩ :=
    getReversedSlice_spec (stats.Entries.read "request_duration_count") start end_ h0 h1 h2
  obtain ⟨sum, hsum, hsl, hsget⟩ :=
    getReversedSlice_spec (stats.Entries.read "request_duration_sum") start end_ h0 h1 h2
  obtain ⟨a, ha, hal, -⟩ :=
    getReversedSlice_spec (stats.Entries.read requests.name) start end_ h0 h1 h2
  obtain ⟨b, hb, hbl, -⟩ :=
    getReversedSlice_spec (stats.Entries.read filtered.name) start end_ h0 h1 h2
  obtain ⟨c, hc, hcl2, -⟩ :=
    getReversedSlice_spec (stats.Entries.read filteredSafebrowsing.name) start end_ h0 h1 h2
  obtain ⟨d, hd, hdl, -⟩ :=
    getReversedSlice_spec (stats.Entries.read safesearch.name) start end_ h0 h1 h2
  obtain ⟨e, he, hel, -⟩ :=
    getReversedSlice_spec (stats.Entries.read filteredParental.name) start end_ h0 h1 h2
  have hlen : sum.length = count.length := by omega
  have havg := avgProcessingTimeLoop_spec count sum hlen count.length 0 [] (by omega)
  rw [List.nil_append, List.drop_zero, List.drop_zero] at havg
  have havglen : (List.zipWith (fun c s : F => if c ≠ 0 then s / c * 1000 else 0)
      count sum).length = count.length := by
    rw [List.length_zipWith, hlen, Nat.min_self]
  refine ⟨[("dns_queries", a), ("blocked_filtering", b), ("replaced_safebrowsing", c),
      ("replaced_safesearch", d), ("replaced_parental", e),
      ("avg_processing_time",
        List.zipWith (fun c s : F => if c ≠ 0 then s / c * 1000 else 0) count sum)],
    List.zipWith (fun c s : F => if c ≠ 0 then s / c * 1000 else 0) count sum,
    ?_, ?_, ?_, ?_, ?_⟩
  · unfold generateMapFromStats
    simp only [clamp_inside start h0 (by omega), clamp_inside end_ (by omega) (by omega),
      elapsedTime_count_name, elapsedTime_sum_name, hcount, hsum, havg, ha, hb, hc, hd, he]
  · rfl
  · rw [havglen]; exact hcl
  · intro key hkey
    simp only [List.mem_cons, List.mem_singleton, List.not_mem_nil, or_false] at hkey
    rcases hkey with rfl | rfl | rfl | rfl | rfl
    · exact ⟨a, rfl, by rw [havglen]; omega⟩
    · exact ⟨b, rfl, by rw [havglen]; omega⟩
    · exact ⟨c, rfl, by rw [havglen]; omega⟩
    · exact ⟨d, rfl, by rw [havglen]; omega⟩
    · exact ⟨e, rfl, by rw [havglen]; omega⟩
  · intro j hj
    rw [List.getElem?_zipWith_eq_some]
    exact ⟨_, _, hcget j hj, hsget j hj, rfl⟩

/-- C10 at `latencySeries`, buckets 0 to 1: the older bucket has no sample and
averages to exactly 0, the current bucket averages to 300 ms. -/
theorem C10_avg_processing_time_witness :
    ∃ m avg, generateMapFromStats latencySeries 0 1 = some m ∧
      mapLookup m "avg_processing_time" = some avg ∧
      avg.length = 2 ∧ avg[0]? = some 0 ∧ avg[1]? = some 300 := by
  obtain ⟨m, avg, hm, havg, hlen, -, hget⟩ :=
    C10_avg_processing_time latencySeries 0 1 (by decide) (by decide) (by decide)
  have hc1 : latencySeries.Entries.read "request_duration_count" 1 = 0 := by
    simp [latencySeries, statsEntries.read, statsEntries.write, zeroBuckets]
  have hc0 : latencySeries.Entries.read "request_duration_count" 0 = 2 := by
    simp [latencySeries, statsEntries.read, statsEntries.write, zeroBuckets]
  have hs0 : latencySeries.Entries.read "request_duration_sum" 0 = 3 / 5 := by
    simp [latencySeries, statsEntries.read, statsEntries.write, zeroBuckets]
  refine ⟨m, avg, hm, havg, by omega, ?_, ?_⟩
  · have h := hget 0 (by decide)
    have hidx : (⟨((1 : Int) - ((0 : Nat) : Int)).toNat, by decide⟩ :
        Fin statsHistoryElements) = 1 := by decide
    rw [hidx, hc1] at h
    rw [h]
    simp
  · have h := hget 1 (by decide)
    have hidx : (⟨((1 : Int) - ((1 : Nat) : Int)).toNat, by decide⟩ :
        Fin statsHistoryElements) = 0 := by decide
    rw [hidx, hc0, hs0] at h
    rw [h]
    norm_num

/-! ### The summary -/

/-- Inside the array `generateMapFromStats` returns the six series, built from
the reversed slices of the seven metrics it reads. -/
theorem generateMapFromStats_inside {F : Type} [Zero F] [Mul F] [Div F] [OfNat F 1000]
    [DecidableEq F] (stats : periodicStats F) (start end_ : Int)
    (h0 : 0 ≤ start) (h1 : start ≤ end_) (h2 : end_ ≤ 60) :
    ∃ count sum a b c d e,
      getReversedSlice (stats.Entries.read "request_duration_count") start end_ = some count ∧
      getReversedSlice (stats.Entries.read "request_duration_sum") start end_ = some sum ∧
      getReversedSlice (stats.Entries.read "requests_total") start end_ = some a ∧
      getReversedSlice (stats.Entries.read "filtered_total") start end_ = some b ∧
      getReversedSlice (stats.Entries.read "filtered_safebrowsing_total") start end_ = some c ∧
      getReversedSlice (stats.Entries.read "safesearch_total") start end_ = some d ∧
      getReversedSlice (stats.Entries.read "filtered_parental_total") start end_ = some e ∧
      sum.length = count.length ∧
      generateMapFromStats stats start end_ = some
        [("dns_queries", a), ("blocked_filtering", b), ("replaced_safebrowsing", c),
         ("replaced_safesearch", d), ("replaced_parental", e),
         ("avg_processing_time",
           List.zipWith (fun c s : F => if c ≠ 0 then s / c * 1000 else 0) count sum)] := by
  obtain ⟨count, hcount, hcl, -⟩ :=
    getReversedSlice_spec (stats.Entries.read "request_duration_count") start end_ h0 h1 h2
  obtain ⟨sum, hsum, hsl, -⟩ :=
    getReversedSlice_spec (stats.Entries.read "request_duration_sum") start end_ h0 h1 h2
  obtain ⟨a, ha, -, -⟩ :=
    getReversedSlice_spec (stats.Entries.read "requests_total") start end_ h0 h1 h2
  obtain ⟨b, hb, -, -⟩ :=
    getReversedSlice_spec (stats.Entries.read "filtered_total") start end_ h0 h1 h2
  obtain ⟨c, hc, -, -⟩ :=
    getReversedSlice_spec (stats.Entries.read "filtered_safebrowsing_total") start end_ h0 h1 h2
  obtain ⟨d, hd, -, -⟩ :=
    getReversedSlice_spec (stats.Entries.read "safesearch_total") start end_ h0 h1 h2
  obtain ⟨e, he, -, -⟩ :=
    getReversedSlice_spec (stats.Entries.read "filtered_parental_total") start end_ h0 h1 h2
  have hlen : sum.length = count.length := by omega
  have havg := avgProcessingTimeLoop_spec count sum hlen count.length 0 [] (by omega)
  rw [List.nil_append, List.drop_zero, List.drop_zero] at havg
  refine ⟨count, sum, a, b, c, d, e, hcount, hsum, ha, hb, hc, hd, he, hlen, ?_⟩
  have hr : requests.name = "requests_total" := rfl
  have hf : filtered.name = "filtered_total" := rfl
  have hsb : filteredSafebrowsing.name = "filtered_safebrowsing_total" := rfl
  have hss : safesearch.name = "safesearch_total" := rfl
  have hfp : filteredParental.name = "filtered_parental_total" := rfl
  unfold generateMapFromStats
  simp only [clamp_inside start h0 (by omega), clamp_inside end_ (by omega) (by omega),
    elapsedTime_count_name, elapsedTime_sum_name, hr, hf, hsb, hss, hfp,
    hcount, hsum, havg, ha, hb, hc, hd, he]

/-- What `HandleStats` hands to the encoder: the sums of the six series of
`generateMapFromStats(PerHour, 0, 24)`, the one of `avg_processing_time`
divided by 24, and the label. -/
theorem HandleStats_eq {F : Type} [Zero F] [Add F] [Mul F] [Div F] [OfNat F 1000] [OfNat F 24]
    [DecidableEq F] (statistics : stats F)
    (a b c d e avg : List F)
    (hgen : generateMapFromStats statistics.PerHour 0 24 = some
      [("dns_queries", a), ("blocked_filtering", b), ("replaced_safebrowsing", c),
       ("replaced_safesearch", d), ("replaced_parental", e), ("avg_processing_time", avg)]) :
    HandleStats statistics = some
      [("dns_queries", jsonValue.number (sumFloats a)),
       ("blocked_filtering", jsonValue.number (sumFloats b)),
       ("replaced_safebrowsing", jsonValue.number (sumFloats c)),
       ("replaced_safesearch", jsonValue.number (sumFloats d)),
       ("replaced_parental", jsonValue.number (sumFloats e)),
       ("avg_processing_time", jsonValue.number (sumFloats avg / 24)),
       ("stats_period", jsonValue.text "24 hours")] := by
  unfold HandleStats
  rw [hgen]
  rfl

/-- C11, the code at the failing input: on `dayOldRequestStats` the buckets 0
to 23 of `requests_total`, the last 24 hourly buckets, are all 0, yet the
summary reports `dns_queries = 1`: `generateMapFromStats(PerHour, 0, 24)` takes
the 25 buckets 0 to 24. -/
theorem C11_HandleStats_sums_25_buckets :
    (∀ i : Fin statsHistoryElements, i.val < 24 →
      dayOldRequestStats.PerHour.Entries.read "requests_total" i = 0) ∧
    ∃ m series summary, generateMapFromStats dayOldRequestStats.PerHour 0 24 = some m ∧
      mapLookup m "dns_queries" = some series ∧ series.length = 25 ∧
      HandleStats dayOldRequestStats = some summary ∧
      summaryLookup summary "dns_queries" = some (jsonValue.number 1) := by
  constructor
  · intro i hi
    have hne : i ≠ 24 := by
      intro h
      rw [h] at hi
      exact absurd hi (by decide)
    simp [dayOldRequestStats, dayOldRequestSeries, statsEntries.read, statsEntries.write,
      zeroBuckets, Function.update_noteq hne]
  · obtain ⟨count, sum, a, b, c, d, e, -, -, ha, -, -, -, -, -, hgen⟩ :=
      generateMapFromStats_inside dayOldRequestStats.PerHour 0 24
        (by decide) (by decide) (by decide)
    have ha2 : getReversedSlice (dayOldRequestStats.PerHour.Entries.read "requests_total") 0 24
        = some (1 :: List.replicate 24 0) := by rfl
    have hval : a = 1 :: List.replicate 24 0 := Option.some.inj (ha.symm.trans ha2)
    refine ⟨_, a, _, hgen, rfl, ?_, HandleStats_eq dayOldRequestStats _ _ _ _ _ _ hgen, ?_⟩
    · rw [hval]; rfl
    · have hsum : sumFloats a = 1 := by
        rw [hval]
        simp [sumFloats, List.replicate]
      rw [← hsum]
      rfl

/-- C19: the summary's `avg_processing_time` is the sum of the
`avg_processing_time` series of `generateMapFromStats(PerHour, 0, 24)` divided
by the constant 24, whatever the buckets hold; each of the five other summary
values is the plain sum of its series. -/
theorem C19_avg_divided_by_24 {F : Type} [Zero F] [Add F] [Mul F] [Div F] [OfNat F 1000]
    [OfNat F 24] [DecidableEq F] (statistics : stats F) :
    ∃ m avg summary, generateMapFromStats statistics.PerHour 0 24 = some m ∧
      mapLookup m "avg_processing_time" = some avg ∧
      HandleStats statistics = some summary ∧
      summaryLookup summary "avg_processing_time" =
        some (jsonValue.number (sumFloats avg / 24)) ∧
      ∀ key ∈ ["dns_queries", "blocked_filtering", "replaced_safebrowsing",
          "replaced_safesearch", "replaced_parental"],
        ∃ series, mapLookup m key = some series ∧
          summaryLookup summary key = some (jsonValue.number (sumFloats series)) := by
  obtain ⟨count, sum, a, b, c, d, e, -, -, -, -, -, -, -, -, hgen⟩ :=
    generateMapFromStats_inside statistics.PerHour 0 24 (by decide) (by decide) (by decide)
  refine ⟨_, _, _, hgen, rfl, HandleStats_eq statistics _ _ _ _ _ _ hgen, rfl, ?_⟩
  intro key hkey
  simp only [List.mem_cons, List.mem_singleton, List.not_mem_nil, or_false] at hkey
  rcases hkey with rfl | rfl | rfl | rfl | rfl
  · exact ⟨a, rfl, rfl⟩
  · exact ⟨b, rfl, rfl⟩
  · exact ⟨c, rfl, rfl⟩
  · exact ⟨d, rfl, rfl⟩
  · exact ⟨e, rfl, rfl⟩

/-! ### Reset -/

theorem getReversedSliceLoop_all {F : Type} (P : F → Prop) (input : Buckets F)
    (hinput : ∀ i, P (input i)) (n : Nat) (i : Int) (output l : List F)
    (hout : ∀ x ∈ output, P x) (hl : getReversedSliceLoop input n i output = some l) :
    ∀ x ∈ l, P x := by
  induction n generalizing i output with
  | zero =>
    simp only [getReversedSliceLoop, Option.some.injEq] at hl
    rw [← hl]
    exact hout
  | succ n ih =>
    simp only [getReversedSliceLoop] at hl
    cases hidx : arrayIndex i with
    | none => rw [hidx] at hl; exact absurd hl (by simp)
    | some idx =>
      rw [hidx] at hl
      refine ih (i + 1) (input idx :: output) ?_ hl
      intro x hx
      rcases List.mem_cons.1 hx with h | h
      · rw [h]; exact hinput idx
      · exact hout x h

/-- A slice of an all-zero array is all zero. -/
theorem getReversedSlice_zero {F : Type} [Zero F] (input : Buckets F)
    (hinput : ∀ i, input i = 0) (start end_ : Int) (l : List F)
    (hl : getReversedSlice input start end_ = some l) : ∀ x ∈ l, x = 0 :=
  getReversedSliceLoop_all (fun x => x = 0) input hinput _ _ [] l
    (fun x hx => absurd hx (List.not_mem_nil x)) hl

/-- The sum of zeros is zero, as soon as `0 + 0 = 0`. -/
theorem sumFloats_zero {F : Type} [Zero F] [Add F] (h00 : (0 : F) + 0 = 0) (l : List F)
    (hl : ∀ x ∈ l, x = 0) : sumFloats l = 0 := by
  unfold sumFloats
  induction l with
  | nil => rfl
  | cons x l ih =>
    rw [List.foldl_cons, hl x (List.mem_cons_self _ _), h00]
    exact ih (fun y hy => hl y (List.mem_cons_of_mem _ hy))

/-- Without samples every average is zero. -/
theorem zipWith_avg_zero {F : Type} [Zero F] [Mul F] [Div F] [OfNat F 1000] [DecidableEq F]
    (count sum : List F) (hcount : ∀ x ∈ count, x = 0) :
    ∀ x ∈ List.zipWith (fun c s : F => if c ≠ 0 then s / c * 1000 else 0) count sum, x = 0 := by
  induction count generalizing sum with
  | nil => intro x hx; simp at hx
  | cons c count ih =>
    cases sum with
    | nil => intro x hx; simp at hx
    | cons s sum =>
      intro x hx
      rw [List.zipWith_cons_cons] at hx
      rcases List.mem_cons.1 hx with h | h
      · rw [h, hcount c (List.mem_cons_self _ _)]
        simp
      · exact ih sum (fun y hy => hcount y (List.mem_cons_of_mem _ hy)) x h

/-- C15: whatever the prior state, `purgeStats` leaves each of the four series
with an empty `Entries` map, `LastRotate` equal to the clock reading of its
initialisation, and the periods 1 second, 1 minute, 1 hour and 24 hours; the
summary computed right afterwards has the five counts and
`avg_processing_time` equal to 0 and `stats_period` equal to `"24 hours"`.
The two arithmetic facts used, `0 + 0 = 0` and `0 / 24 = 0`, hold for `float64`
and in every division ring. -/
theorem C15_purgeStats_resets {F : Type} [Zero F] [Add F] [Mul F] [Div F] [OfNat F 1000]
    [OfNat F 24] [DecidableEq F] (prior : stats F) (now1 now2 now3 now4 : Int)
    (h00 : (0 : F) + 0 = 0) (hdiv : (0 : F) / 24 = 0) :
    (∀ name, (purgeStats prior now1 now2 now3 now4).PerSecond.Entries name = none) ∧
    (∀ name, (purgeStats prior now1 now2 now3 now4).PerMinute.Entries name = none) ∧
    (∀ name, (purgeStats prior now1 now2 now3 now4).PerHour.Entries name = none) ∧
    (∀ name, (purgeStats prior now1 now2 now3 now4).PerDay.Entries name = none) ∧
    (purgeStats prior now1 now2 now3 now4).PerSecond.LastRotate = now1 ∧
    (purgeStats prior now1 now2 now3 now4).PerMinute.LastRotate = now2 ∧
    (purgeStats prior now1 now2 now3 now4).PerHour.LastRotate = now3 ∧
    (purgeStats prior now1 now2 now3 now4).PerDay.LastRotate = now4 ∧
    (purgeStats prior now1 now2 now3 now4).PerSecond.period = 1000000000 ∧
    (purgeStats prior now1 now2 now3 now4).PerMinute.period = 60 * 1000000000 ∧
    (purgeStats prior now1 now2 now3 now4).PerHour.period = 3600 * 1000000000 ∧
    (purgeStats prior now1 now2 now3 now4).PerDay.period = 24 * (3600 * 1000000000) ∧
    HandleStats (purgeStats prior now1 now2 now3 now4) = some
      [("dns_queries", jsonValue.number 0),
       ("blocked_filtering", jsonValue.number 0),
       ("replaced_safebrowsing", jsonValue.number 0),
       ("replaced_safesearch", jsonValue.number 0),
       ("replaced_parental", jsonValue.number 0),
       ("avg_processing_time", jsonValue.number 0),
       ("stats_period", jsonValue.text "24 hours")] := by
  refine ⟨fun _ => rfl, fun _ => rfl, fun _ => rfl, fun _ => rfl, rfl, rfl, rfl, rfl,
    rfl, rfl, rfl, rfl, ?_⟩
  obtain ⟨count, sum, a, b, c, d, e, hcount, -, ha, hb, hc, hd, he, -, hgen⟩ :=
    generateMapFromStats_inside (purgeStats prior now1 now2 now3 now4).PerHour 0 24
      (by decide) (by decide) (by decide)
  have hzero : ∀ name i,
      (purgeStats prior now1 now2 now3 now4).PerHour.Entries.read name i = 0 :=
    fun name i => read_absent _ name rfl i
  have hz : ∀ name l, getReversedSlice
      ((purgeStats prior now1 now2 now3 now4).PerHour.Entries.read name) 0 24 = some l →
      sumFloats l = 0 :=
    fun name l hl => sumFloats_zero h00 l (getReversedSlice_zero _ (hzero name) 0 24 l hl)
  have havg : sumFloats
      (List.zipWith (fun c s : F => if c ≠ 0 then s / c * 1000 else 0) count sum) = 0 :=
    sumFloats_zero h00 _
      (zipWith_avg_zero count sum (getReversedSlice_zero _ (hzero _) 0 24 count hcount))
  rw [HandleStats_eq _ _ _ _ _ _ _ hgen, hz _ a ha, hz _ b hb, hz _ c hc, hz _ d hd, hz _ e he,
    havg, hdiv]

/-- C15 in rational arithmetic, for a reset at time 5 of `dayOldRequestStats`. -/
theorem C15_purgeStats_resets_witness :
    (purgeStats dayOldRequestStats 5 5 5 5).PerHour.Entries "requests_total" = none ∧
    (purgeStats dayOldRequestStats 5 5 5 5).PerHour.LastRotate = 5 ∧
    HandleStats (purgeStats dayOldRequestStats 5 5 5 5) = some
      [("dns_queries", jsonValue.number 0),
       ("blocked_filtering", jsonValue.number 0),
       ("replaced_safebrowsing", jsonValue.number 0),
       ("replaced_safesearch", jsonValue.number 0),
       ("replaced_parental", jsonValue.number 0),
       ("avg_processing_time", jsonValue.number 0),
       ("stats_period", jsonValue.text "24 hours")] := by
  obtain ⟨-, -, h3, -, -, -, h7, -, -, -, -, -, hsum⟩ :=
    C15_purgeStats_resets dayOldRequestStats 5 5 5 5 (by norm_num) (by norm_num)
  exact ⟨h3 "requests_total", h7, hsum⟩

/-! ### The historical range query -/

/-- For a difference that is not negative and fits a duration, the code's
quotient is the floor quotient. -/
theorem durationDiv_nonneg {period t u : Int} (hp : validPeriod period) (h0 : 0 ≤ t - u)
    (h1 : t - u ≤ maxDuration) :
    durationDiv (timeSub t u) period = some ((t - u).fdiv period) := by
  obtain ⟨hpos, -⟩ := hp
  have hmax : maxDuration = 2 ^ 63 - 1 := rfl
  unfold durationDiv
  rw [if_neg (by omega), timeSub_of_range h0 h1, Int.tdiv_eq_ediv h0 hpos.le,
    Int.fdiv_eq_ediv _ hpos.le]
  have h2 : 0 ≤ (t - u) / period := Int.ediv_nonneg h0 hpos.le
  have h3 : (t - u) / period ≤ t - u := Int.ediv_le_self _ h0
  rw [wrapInt64_of_range (by omega) (by omega)]

/-- The four time units of `HandleStatsHistory` and their series. -/
theorem selectTimeUnit_cases {F : Type} (statistics : stats F) (timeUnitString : String)
    (timeUnit : Int)
    (hunit : (timeUnitString, timeUnit) ∈
      [("seconds", second), ("minutes", minute), ("hours", hour), ("days", hour * 24)]) :
    validPeriod timeUnit ∧
      ∃ series, selectTimeUnit statistics timeUnitString = some (timeUnit, series) := by
  simp only [List.mem_cons, List.mem_singleton, List.not_mem_nil, or_false,
    Prod.mk.injEq] at hunit
  rcases hunit with ⟨rfl, rfl⟩ | ⟨rfl, rfl⟩ | ⟨rfl, rfl⟩ | ⟨rfl, rfl⟩
  · exact ⟨validPeriod_second, _, rfl⟩
  · exact ⟨validPeriod_minute, _, rfl⟩
  · exact ⟨validPeriod_hour, _, rfl⟩
  · exact ⟨validPeriod_day, _, rfl⟩

/-- The product `timeUnit * statsHistoryElements` does not overflow. -/
theorem timeRange_eq {timeUnit : Int} (hp : validPeriod timeUnit) :
    wrapInt64 (timeUnit * statsHistoryElements) = 61 * timeUnit := by
  obtain ⟨hpos, hfit⟩ := hp
  have h61 : (statsHistoryElements : Int) = 61 := rfl
  have hmax : maxDuration = 2 ^ 63 - 1 := rfl
  rw [h61] at hfit ⊢
  rw [wrapInt64_of_range (by omega) (by omega)]
  omega

/-- The handler after the parameters are read: the two range checks, then the
report for the derived indices. -/
theorem HandleStatsHistory_eq {F : Type} [Zero F] [Mul F] [Div F] [OfNat F 1000]
    [DecidableEq F] (statistics : stats F) (now : Int) (timeUnitString : String)
    (timeUnit : Int) (series : periodicStats F) (startTime endTime : Int)
    (hp : validPeriod timeUnit)
    (hsel : selectTimeUnit statistics timeUnitString = some (timeUnit, series)) :
    HandleStatsHistory statistics now timeUnitString (some startTime) (some endTime) =
      if startTime + 61 * timeUnit < now ∨ endTime + 61 * timeUnit < now then
        some (response.httpError 501)
      else
        match historyIndices now startTime endTime timeUnit with
        | none => none
        | some (start, end_) => (generateMapFromStats series start end_).map response.json := by
  unfold HandleStatsHistory
  rw [hsel]
  simp only [timeRange_eq hp]
  by_cases h1 : startTime + 61 * timeUnit < now
  · rw [if_pos h1, if_pos (Or.inl h1)]
  · by_cases h2 : endTime + 61 * timeUnit < now
    · rw [if_neg h1, if_pos h2, if_pos (Or.inr h2)]
    · rw [if_neg h1, if_neg h2, if_neg (by tauto)]

/-- C12: for each of the four resolutions, with period `p`, and all parsed
timestamps, the historical range query answers status 501 if and only if
`start_time + 61 * p` is before `now` or `end_time + 61 * p` is before `now`. -/
theorem C12_range_check_501 {F : Type} [Zero F] [Mul F] [Div F] [OfNat F 1000]
    [DecidableEq F] (statistics : stats F) (now : Int) (timeUnitString : String) (p : Int)
    (startTime endTime : Int)
    (hunit : (timeUnitString, p) ∈
      [("seconds", second), ("minutes", minute), ("hours", hour), ("days", hour * 24)]) :
    HandleStatsHistory statistics now timeUnitString (some startTime) (some endTime) =
        some (response.httpError 501) ↔
      (startTime + 61 * p < now ∨ endTime + 61 * p < now) := by
  obtain ⟨hp, series, hsel⟩ := selectTimeUnit_cases statistics timeUnitString p hunit
  rw [HandleStatsHistory_eq statistics now timeUnitString p series startTime endTime hp hsel]
  by_cases h : startTime + 61 * p < now ∨ endTime + 61 * p < now
  · rw [if_pos h]
    exact ⟨fun _ => h, fun _ => rfl⟩
  · simp only [if_neg h, h, iff_false]
    cases historyIndices now startTime endTime p with
    | none => simp
    | some idx =>
      obtain ⟨start, end_⟩ := idx
      cases generateMapFromStats series start end_ <;> simp

/-- C12 at its scenario: with `time_unit=hours`, `start_time` 100 hours and
`end_time` 1 hour before `now`, the answer is status 501. -/
theorem C12_range_check_501_witness :
    HandleStatsHistory dayOldRequestStats (200 * hour) "hours"
      (some (200 * hour - 100 * hour)) (some (200 * hour - 1 * hour)) =
        some (response.httpError 501) :=
  (C12_range_check_501 dayOldRequestStats (200 * hour) "hours" hour
    (200 * hour - 100 * hour) (200 * hour - 1 * hour) (by decide)).2 (by decide)

/-- The indices of an accepted query with timestamps not after `now`. -/
theorem historyIndices_eq {timeUnit now startTime endTime : Int} (hp : validPeriod timeUnit)
    (hs : startTime ≤ now) (he : endTime ≤ now)
    (hacc1 : now ≤ startTime + 61 * timeUnit) (hacc2 : now ≤ endTime + 61 * timeUnit) :
    historyIndices now startTime endTime timeUnit =
      some (min ((now - endTime).fdiv timeUnit) ((now - startTime).fdiv timeUnit),
            max ((now - endTime).fdiv timeUnit) ((now - startTime).fdiv timeUnit)) := by
  have hfit := hp.2
  have h61 : (statsHistoryElements : Int) = 61 := rfl
  rw [h61] at hfit
  unfold historyIndices
  rw [durationDiv_nonneg hp (show 0 ≤ now - endTime by omega) (by omega),
    durationDiv_nonneg hp (show 0 ≤ now - startTime by omega) (by omega)]
  simp only
  by_cases h : (now - endTime).fdiv timeUnit > (now - startTime).fdiv timeUnit
  · rw [if_pos h, min_eq_right (by omega), max_eq_left (by omega)]
  · rw [if_neg h, min_eq_left (by omega), max_eq_right (by omega)]

theorem fdiv_mono {period x y : Int} (hpos : 0 < period) (h : x ≤ y) :
    x.fdiv period ≤ y.fdiv period := by
  rw [Int.fdiv_eq_ediv _ hpos.le, Int.fdiv_eq_ediv _ hpos.le]
  exact Int.ediv_le_ediv hpos h

/-- C13: for an accepted historical query (valid time unit, both timestamps
parsed and passing the range check) with timestamps not after `now`, the index
pair passed to `generateMapFromStats` is `(min a b, max a b)` with
`a = floor((now - end_time) / period)` and
`b = floor((now - start_time) / period)`; so the start index is at most the end
index, and the later timestamp never gets the larger index. -/
theorem C13_history_index_pair {F : Type} [Zero F] [Mul F] [Div F] [OfNat F 1000]
    [DecidableEq F] (statistics : stats F) (now : Int) (timeUnitString : String) (p : Int)
    (startTime endTime : Int)
    (hunit : (timeUnitString, p) ∈
      [("seconds", second), ("minutes", minute), ("hours", hour), ("days", hour * 24)])
    (hs : startTime ≤ now) (he : endTime ≤ now)
    (hacc1 : ¬ startTime + 61 * p < now) (hacc2 : ¬ endTime + 61 * p < now) :
    ∃ series, selectTimeUnit statistics timeUnitString = some (p, series) ∧
      historyIndices now startTime endTime p =
        some (min ((now - endTime).fdiv p) ((now - startTime).fdiv p),
              max ((now - endTime).fdiv p) ((now - startTime).fdiv p)) ∧
      HandleStatsHistory statistics now timeUnitString (some startTime) (some endTime) =
        (generateMapFromStats series
          (min ((now - endTime).fdiv p) ((now - startTime).fdiv p))
          (max ((now - endTime).fdiv p) ((now - startTime).fdiv p))).map response.json ∧
      min ((now - endTime).fdiv p) ((now - startTime).fdiv p) ≤
        max ((now - endTime).fdiv p) ((now - startTime).fdiv p) ∧
      (startTime ≤ endTime → (now - endTime).fdiv p ≤ (now - startTime).fdiv p) := by
  obtain ⟨hp, series, hsel⟩ := selectTimeUnit_cases statistics timeUnitString p hunit
  have hidx := historyIndices_eq hp hs he (by omega) (by omega)
  refine ⟨series, hsel, hidx, ?_, ?_, ?_⟩
  · rw [HandleStatsHistory_eq statistics now timeUnitString p series startTime endTime hp hsel,
      if_neg (by tauto), hidx]
  · exact le_trans (min_le_left _ _) (le_max_left _ _)
  · intro hse
    exact fdiv_mono hp.1 (by omega)

/-- C13 for the hours resolution at `now` = 10 h: the query from 3 h to 8 h
reads the indices 2 to 7. -/
theorem C13_history_index_pair_witness :
    historyIndices (10 * hour) (3 * hour) (8 * hour) hour = some (2, 7) ∧
    HandleStatsHistory dayOldRequestStats (10 * hour) "hours" (some (3 * hour))
        (some (8 * hour)) =
      (generateMapFromStats dayOldRequestStats.PerHour 2 7).map response.json := by
  obtain ⟨series, hsel, hidx, hres, -, -⟩ :=
    C13_history_index_pair dayOldRequestStats (10 * hour) "hours" hour (3 * hour) (8 * hour)
      (by decide) (by decide) (by decide) (by decide) (by decide)
  have hseries : series = dayOldRequestStats.PerHour := by
    have h : selectTimeUnit dayOldRequestStats "hours" =
        some (hour, dayOldRequestStats.PerHour) := rfl
    rw [h] at hsel
    exact ((Prod.mk.inj (Option.some.inj hsel)).2).symm
  have h1 : min ((10 * hour - 8 * hour).fdiv hour) ((10 * hour - 3 * hour).fdiv hour) = 2 := by
    decide
  have h2 : max ((10 * hour - 8 * hour).fdiv hour) ((10 * hour - 3 * hour).fdiv hour) = 7 := by
    decide
  rw [h1, h2] at hidx hres
  rw [hseries] at hres
  exact ⟨hidx, hres⟩

theorem getReversedSlice_length {F : Type} (input : Buckets F) (start end_ : Int)
    (h0 : 0 ≤ start) (h1 : start ≤ end_) (h2 : end_ ≤ 60) (l : List F)
    (hl : getReversedSlice input start end_ = some l) : (l.length : Int) = end_ - start + 1 := by
  obtain ⟨output, hout, hlen, -⟩ := getReversedSlice_spec input start end_ h0 h1 h2
  rw [Option.some.inj (hl.symm.trans hout)]
  exact hlen

/-- Inside the array each of the six series of the report has
`end - start + 1` elements. -/
theorem generateMapFromStats_lengths {F : Type} [Zero F] [Mul F] [Div F] [OfNat F 1000]
    [DecidableEq F] (stats : periodicStats F) (start end_ : Int)
    (h0 : 0 ≤ start) (h1 : start ≤ end_) (h2 : end_ ≤ 60) :
    ∃ m, generateMapFromStats stats start end_ = some m ∧
      ∀ key ∈ ["dns_queries", "blocked_filtering", "replaced_safebrowsing",
          "replaced_safesearch", "replaced_parental", "avg_processing_time"],
        ∃ l, mapLookup m key = some l ∧ (l.length : Int) = end_ - start + 1 := by
  obtain ⟨count, sum, a, b, c, d, e, hcount, hsum, ha, hb, hc, hd, he, hlen, hgen⟩ :=
    generateMapFromStats_inside stats start end_ h0 h1 h2
  refine ⟨_, hgen, ?_⟩
  intro key hkey
  simp only [List.mem_cons, List.mem_singleton, List.not_mem_nil, or_false] at hkey
  rcases hkey with rfl | rfl | rfl | rfl | rfl | rfl
  · exact ⟨a, rfl, getReversedSlice_length _ _ _ h0 h1 h2 a ha⟩
  · exact ⟨b, rfl, getReversedSlice_length _ _ _ h0 h1 h2 b hb⟩
  · exact ⟨c, rfl, getReversedSlice_length _ _ _ h0 h1 h2 c hc⟩
  · exact ⟨d, rfl, getReversedSlice_length _ _ _ h0 h1 h2 d hd⟩
  · exact ⟨e, rfl, getReversedSlice_length _ _ _ h0 h1 h2 e he⟩
  · refine ⟨_, rfl, ?_⟩
    rw [List.length_zipWith, hlen, Nat.min_self]
    exact getReversedSlice_length _ _ _ h0 h1 h2 count hcount

/-- A query of the hours resolution whose timestamps are one hour apart, not
after `now` and less than 61 hours old, reads two buckets. -/
theorem HandleStatsHistory_one_hour {F : Type} [Zero F] [Mul F] [Div F] [OfNat F 1000]
    [DecidableEq F] (statistics : stats F) (now startTime : Int)
    (he : startTime + hour ≤ now) (hlt : now < startTime + 61 * hour) :
    ∃ data, HandleStatsHistory statistics now "hours" (some startTime)
        (some (startTime + hour)) = some (response.json data) ∧
      ∀ key ∈ ["dns_queries", "blocked_filtering", "replaced_safebrowsing",
          "replaced_safesearch", "replaced_parental", "avg_processing_time"],
        ∃ l, mapLookup data key = some l ∧ l.length = 2 := by
  have hp := validPeriod_hour
  have hpos : 0 < hour := hp.1
  have hsel : selectTimeUnit statistics "hours" = some (hour, statistics.PerHour) := rfl
  have hb : (now - startTime).fdiv hour = (now - (startTime + hour)).fdiv hour + 1 := by
    rw [Int.fdiv_eq_ediv _ hpos.le, Int.fdiv_eq_ediv _ hpos.le,
      ← Int.add_mul_ediv_right _ 1 (Int.ne_of_gt hpos)]
    congr 1
    omega
  have ha0 : 0 ≤ (now - (startTime + hour)).fdiv hour := fdiv_nonneg hpos (by omega)
  have hb60 : (now - startTime).fdiv hour < 61 := by
    rw [Int.fdiv_eq_ediv _ hpos.le]
    exact Int.ediv_lt_of_lt_mul hpos (by omega)
  have hidx := @historyIndices_eq hour now startTime (startTime + hour) hp
    (show startTime ≤ now by omega) he (by omega) (by omega)
  rw [min_eq_left (by omega), max_eq_right (by omega)] at hidx
  obtain ⟨m, hm, hlens⟩ := generateMapFromStats_lengths statistics.PerHour
    ((now - (startTime + hour)).fdiv hour) ((now - startTime).fdiv hour)
    ha0 (by omega) (by omega)
  refine ⟨m, ?_, ?_⟩
  · rw [HandleStatsHistory_eq statistics now "hours" hour statistics.PerHour startTime
      (startTime + hour) hp hsel, if_neg (by omega), hidx]
    simp only [hm, Option.map_some']
  · intro key hkey
    obtain ⟨l, hl, hlen⟩ := hlens key hkey
    exact ⟨l, hl, by omega⟩

/-- C14, as the code has it: for the hours resolution, every `now` and every
`start_time` with `end_time = start_time + 1 hour`, both not after `now` and
`start_time` less than 61 hours old, the historical range query returns series
of exactly 2 elements each, wherever in the retained window the range lies. -/
theorem C14_one_hour_range {F : Type} [Zero F] [Mul F] [Div F] [OfNat F 1000]
    [DecidableEq F] (statistics : stats F) (now startTime : Int)
    (he : startTime + hour ≤ now) (hlt : now < startTime + 61 * hour) :
    ∃ data, HandleStatsHistory statistics now "hours" (some startTime)
        (some (startTime + hour)) = some (response.json data) ∧
      ∀ key ∈ ["dns_queries", "blocked_filtering", "replaced_safebrowsing",
          "replaced_safesearch", "replaced_parental", "avg_processing_time"],
        ∃ l, mapLookup data key = some l ∧ l.length = 2 :=
  HandleStatsHistory_one_hour statistics now startTime he hlt

/-- C14 as amended, at `now` = 50 h: the range from 10 h to 11 h yields two
elements. -/
theorem C14_one_hour_range_witness :
    ∃ data l, HandleStatsHistory dayOldRequestStats (50 * hour) "hours" (some (10 * hour))
        (some (10 * hour + hour)) = some (response.json data) ∧
      mapLookup data "avg_processing_time" = some l ∧ l.length = 2 := by
  obtain ⟨data, hdata, hkeys⟩ :=
    C14_one_hour_range dayOldRequestStats (50 * hour) (10 * hour) (by decide) (by decide)
  obtain ⟨l, hl, hlen⟩ := hkeys "avg_processing_time" (by decide)
  exact ⟨data, l, hdata, hl, hlen⟩

/-- C14 fails as stated: at `now` = 3 h the query from 1 h to 2 h (one hour
apart, both not after `now`, both inside the retained window) returns series of
2 elements, not of 1. -/
theorem C14_one_hour_range_counterexample :
    ((2 * hour : Int) = 1 * hour + hour ∧ 2 * hour ≤ 3 * hour ∧
      ¬ (1 * hour + 61 * hour < 3 * hour) ∧ ¬ (2 * hour + 61 * hour < 3 * hour)) ∧
    ∃ data l, HandleStatsHistory dayOldRequestStats (3 * hour) "hours" (some (1 * hour))
        (some (1 * hour + hour)) = some (response.json data) ∧
      mapLookup data "dns_queries" = some l ∧ l.length = 2 ∧ l.length ≠ 1 := by
  refine ⟨by decide, ?_⟩
  obtain ⟨data, hdata, hkeys⟩ :=
    HandleStatsHistory_one_hour dayOldRequestStats (3 * hour) (1 * hour) (by decide) (by decide)
  obtain ⟨l, hl, hlen⟩ := hkeys "dns_queries" (by decide)
  exact ⟨data, l, hdata, hl, hlen, by omega⟩

/-- With the end index 61 `generateMapFromStats` faults. -/
theorem generateMapFromStats_fault {F : Type} [Zero F] [Mul F] [Div F] [OfNat F 1000]
    [DecidableEq F] (stats : periodicStats F) (start : Int) :
    generateMapFromStats stats start 61 = none := by
  unfold generateMapFromStats
  simp only [clamp_inside 61 (by decide) (by decide), getReversedSlice_fault]

/-- C18, the code at the failing input: at `now` = 61 h the query of the hours
resolution from 0 h to 60 h passes both range checks (`0 + 61 h` is not before
`now`), derives the indices 1 and 61, and faults reading `input[61]`. -/
theorem C18_history_reads_index_61 {F : Type} [Zero F] [Mul F] [Div F] [OfNat F 1000]
    [DecidableEq F] (statistics : stats F) :
    ¬ ((0 : Int) + 61 * hour < 61 * hour) ∧ ¬ (60 * hour + 61 * hour < 61 * hour) ∧
    historyIndices (61 * hour) 0 (60 * hour) hour = some (1, 61) ∧
    HandleStatsHistory statistics (61 * hour) "hours" (some 0) (some (60 * hour)) = none := by
  have hidx : historyIndices (61 * hour) 0 (60 * hour) hour = some (1, 61) := by decide
  have hsel : selectTimeUnit statistics "hours" = some (hour, statistics.PerHour) := rfl
  refine ⟨by decide, by decide, hidx, ?_⟩
  rw [HandleStatsHistory_eq statistics (61 * hour) "hours" hour statistics.PerHour 0 (60 * hour)
    validPeriod_hour hsel, if_neg (by decide), hidx]
  simp only [generateMapFromStats_fault, Option.map_none']

/-! ### The counter facade -/

/-- What `Inc` does to a series for an event not after `now`: inside the
retained history one bucket of the name grows by 1, outside nothing changes. -/
theorem Inc_effect {F : Type} [Zero F] [One F] [Add F] (p : periodicStats F)
    (now when : Int) (name : String) (hp : validPeriod p.period) (hwhen : when ≤ now) :
    ∃ q, p.Inc now name when = some q ∧
      q.period = p.period ∧ q.LastRotate = p.LastRotate ∧
      (∀ other, other ≠ name → q.Entries other = p.Entries other) ∧
      (∀ k : Fin statsHistoryElements, (now - when).fdiv p.period = (k : Int) →
        q.Entries.read name k = p.Entries.read name k + 1 ∧
        ∀ j, j ≠ k → q.Entries.read name j = p.Entries.read name j) ∧
      ((61 : Int) ≤ (now - when).fdiv p.period → q = p) := by
  by_cases hin : (now - when).fdiv p.period < 61
  · have h0 := fdiv_nonneg hp.1 (show 0 ≤ now - when by omega)
    have hk : (now - when).fdiv p.period =
        ((⟨((now - when).fdiv p.period).toNat, by show _ < 61; omega⟩ :
          Fin statsHistoryElements) : Int) := by
      show _ = ((((now - when).fdiv p.period).toNat : Nat) : Int)
      omega
    refine ⟨_, Inc_inside p now when name _ hp hwhen hk, rfl, rfl, ?_, ?_, ?_⟩
    · intro other hother
      exact write_other _ _ _ _ hother
    · intro k hk2
      have hkeq : (⟨((now - when).fdiv p.period).toNat, by show _ < 61; omega⟩ :
          Fin statsHistoryElements) = k := by
        apply Fin.ext
        show ((now - when).fdiv p.period).toNat = k.val
        omega
      rw [hkeq]
      refine ⟨?_, ?_⟩
      · simp only [read_write_same, Function.update_same]
      · intro j hj
        simp only [read_write_same, Function.update_noteq hj]
    · intro h61
      omega
  · obtain ⟨elapsed, he, hge⟩ := durationDiv_outside (t := now) (u := when) hp
      (by show (61 : Int) ≤ _; omega)
    have hres : p.Inc now name when = some p := by
      unfold periodicStats.Inc timeSince
      rw [he]
      simp only
      rw [if_pos hge]
    refine ⟨p, hres, rfl, rfl, fun _ _ => rfl, ?_, fun _ => rfl⟩
    intro k hk
    have hlt : k.val < 61 := k.isLt
    omega

/-- C16: for a counter `c` (its value below the largest `int64`) and a
timestamp not after the clock readings, `c.IncWithTime(when)` returns normally,
increases `c.value` by exactly 1 and keeps `c.name`; each of the four series
becomes what its own `Inc(c.name, when)` makes of it: bucket
`floor((now - when) / period)` of `c.name` grows by 1 when that index is below
61, the series is untouched when it is not, and no other name, `period` or
`LastRotate` changes. -/
theorem C16_IncWithTime_fans_out {F : Type} [Zero F] [One F] [Add F] (c : counter)
    (statistics : stats F) (now1 now2 now3 now4 when : Int)
    (hvalid : validPeriod statistics.PerSecond.period ∧ validPeriod statistics.PerMinute.period ∧
      validPeriod statistics.PerHour.period ∧ validPeriod statistics.PerDay.period)
    (hwhen : when ≤ now1 ∧ when ≤ now2 ∧ when ≤ now3 ∧ when ≤ now4)
    (hvalue : -(2 ^ 63) ≤ c.value ∧ c.value < 2 ^ 63 - 1) :
    ∃ s c2, c.IncWithTime statistics now1 now2 now3 now4 when = some (s, c2) ∧
      c2.value = c.value + 1 ∧ c2.name = c.name ∧
      ∀ before after now,
        (before, after, now) ∈
          [(statistics.PerSecond, s.PerSecond, now1), (statistics.PerMinute, s.PerMinute, now2),
           (statistics.PerHour, s.PerHour, now3), (statistics.PerDay, s.PerDay, now4)] →
        before.Inc now c.name when = some after ∧
        after.period = before.period ∧ after.LastRotate = before.LastRotate ∧
        (∀ other, other ≠ c.name → after.Entries other = before.Entries other) ∧
        (∀ k : Fin statsHistoryElements, (now - when).fdiv before.period = (k : Int) →
          after.Entries.read c.name k = before.Entries.read c.name k + 1 ∧
          ∀ j, j ≠ k → after.Entries.read c.name j = before.Entries.read c.name j) ∧
        ((61 : Int) ≤ (now - when).fdiv before.period → after = before) := by
  obtain ⟨hv1, hv2, hv3, hv4⟩ := hvalid
  obtain ⟨hw1, hw2, hw3, hw4⟩ := hwhen
  obtain ⟨q1, hq1, e1⟩ := Inc_effect statistics.PerSecond now1 when c.name hv1 hw1
  obtain ⟨q2, hq2, e2⟩ := Inc_effect statistics.PerMinute now2 when c.name hv2 hw2
  obtain ⟨q3, hq3, e3⟩ := Inc_effect statistics.PerHour now3 when c.name hv3 hw3
  obtain ⟨q4, hq4, e4⟩ := Inc_effect statistics.PerDay now4 when c.name hv4 hw4
  refine ⟨{ PerSecond := q1, PerMinute := q2, PerHour := q3, PerDay := q4 },
    { c with value := wrapInt64 (c.value + 1) }, ?_, ?_, rfl, ?_⟩
  · unfold counter.IncWithTime
    rw [hq1, hq2, hq3, hq4]
  · exact wrapInt64_of_range (by omega) (by omega)
  · intro before after now hmem
    simp only [List.mem_cons, List.mem_singleton, List.not_mem_nil, or_false,
      Prod.mk.injEq] at hmem
    rcases hmem with ⟨rfl, rfl, rfl⟩ | ⟨rfl, rfl, rfl⟩ | ⟨rfl, rfl, rfl⟩ | ⟨rfl, rfl, rfl⟩
    · exact ⟨hq1, e1⟩
    · exact ⟨hq2, e2⟩
    · exact ⟨hq3, e3⟩
    · exact ⟨hq4, e4⟩

/-- C16 on freshly purged statistics, for a request 90 seconds old: the
per-second series drops it, the per-minute series counts it in bucket 1, the
per-hour and per-day series in bucket 0, and the cumulative value becomes 1. -/
theorem C16_IncWithTime_fans_out_witness :
    ∃ s c2, requests.IncWithTime (purgeStats dayOldRequestStats 0 0 0 0)
        (100 * second) (100 * second) (100 * second) (100 * second) (10 * second) =
        some (s, c2) ∧
      c2.value = 1 ∧
      s.PerSecond = (purgeStats dayOldRequestStats 0 0 0 0).PerSecond ∧
      s.PerMinute.Entries.read "requests_total" 1 = 0 + 1 ∧
      s.PerHour.Entries.read "requests_total" 0 = 0 + 1 ∧
      s.PerDay.Entries.read "requests_total" 0 = 0 + 1 := by
  obtain ⟨s, c2, hs, hval, -, hall⟩ :=
    C16_IncWithTime_fans_out requests (purgeStats dayOldRequestStats 0 0 0 0)
      (100 * second) (100 * second) (100 * second) (100 * second) (10 * second)
      ⟨validPeriod_second, validPeriod_minute, validPeriod_hour, validPeriod_day⟩
      (by decide) (by decide)
  obtain ⟨-, -, -, -, -, hdrop⟩ := hall _ _ _ (List.mem_cons_self _ _)
  obtain ⟨-, -, -, -, hmin, -⟩ := hall _ _ _
    (List.mem_cons_of_mem _ (List.mem_cons_self _ _))
  obtain ⟨-, -, -, -, hhour, -⟩ := hall _ _ _
    (List.mem_cons_of_mem _ (List.mem_cons_of_mem _ (List.mem_cons_self _ _)))
  obtain ⟨-, -, -, -, hday, -⟩ := hall _ _ _
    (List.mem_cons_of_mem _ (List.mem_cons_of_mem _ (List.mem_cons_of_mem _
      (List.mem_cons_self _ _))))
  have hname : requests.name = "requests_total" := rfl
  rw [hname] at hmin hhour hday
  refine ⟨s, c2, hs, hval, hdrop (by decide), ?_, ?_, ?_⟩
  · rw [(hmin 1 (by decide)).1, read_absent _ _ rfl]
  · rw [(hhour 0 (by decide)).1, read_absent _ _ rfl]
  · rw [(hday 0 (by decide)).1, read_absent _ _ rfl]

/-! ### Reasons -/

set_option maxRecDepth 100000 in
/-- The slices of `_Reason_name` taken by `Reason.String`. -/
theorem Reason_String_table :
    ∀ n : Fin 8, Reason.String (n.val : Int) = reasonNames[n.val]? ∧
      ∃ lo hi, _Reason_index[n.val]? = some lo ∧ _Reason_index[n.val + 1]? = some hi ∧
        lo < hi ∧ hi ≤ _Reason_name.length := by
  intro n
  refine ⟨?_, ?_⟩
  · revert n
    decide
  · fin_cases n
    · exact ⟨0, 19, rfl, rfl, by decide, by decide⟩
    · exact ⟨19, 39, rfl, rfl, by decide, by decide⟩
    · exact ⟨39, 55, rfl, rfl, by decide, by decide⟩
    · exact ⟨55, 72, rfl, rfl, by decide, by decide⟩
    · exact ⟨72, 92, rfl, rfl, by decide, by decide⟩
    · exact ⟨92, 108, rfl, rfl, by decide, by decide⟩
    · exact ⟨108, 123, rfl, rfl, by decide, by decide⟩
    · exact ⟨123, 141, rfl, rfl, by decide, by decide⟩

/-- C17: for a reason `i` with `0 ≤ i ≤ 7`, `String()` returns the `i`-th of
the eight names (the slice bounds taken from `_Reason_index` being valid:
`lo < hi ≤ len(_Reason_name)`); the eight names are distinct and non-empty; for
every other `i` it returns `"Reason("`, the decimal rendering of `i` and
`")"`. -/
theorem C17_Reason_String (i : Int) :
    (0 ≤ i ∧ i ≤ 7 →
      Reason.String i = reasonNames[i.toNat]? ∧
      ∃ lo hi, _Reason_index[i.toNat]? = some lo ∧ _Reason_index[i.toNat + 1]? = some hi ∧
        lo < hi ∧ hi ≤ _Reason_name.length) ∧
    (¬ (0 ≤ i ∧ i ≤ 7) → Reason.String i = some ("Reason(" ++ FormatInt10 i ++ ")")) ∧
    reasonNames =
      ["NotFilteredNotFound", "NotFilteredWhiteList", "NotFilteredError", "FilteredBlackList",
       "FilteredSafeBrowsing", "FilteredParental", "FilteredInvalid", "FilteredSafeSearch"] ∧
    reasonNames.Nodup ∧ (∀ name ∈ reasonNames, name ≠ "") := by
  refine ⟨?_, ?_, rfl, by decide, by decide⟩
  · intro hi
    have h := Reason_String_table ⟨i.toNat, by omega⟩
    have hcast : ((i.toNat : Nat) : Int) = i := by omega
    simp only [hcast] at h
    exact h
  · intro hi
    unfold Reason.String
    have hlen : ((_Reason_index.length : Nat) : Int) - 1 = 8 := by decide
    have hcond : i < 0 ∨ i ≥ (8 : Int) := by omega
    rw [hlen, if_pos hcond]

/-- C17 at the reasons 3, 8 and -1. -/
theorem C17_Reason_String_witness :
    Reason.String 3 = some "FilteredBlackList" ∧
    Reason.String 8 = some "Reason(8)" ∧ Reason.String (-1) = some "Reason(-1)" := by
  refine ⟨?_, ?_, ?_⟩
  · rw [((C17_Reason_String 3).1 (by decide)).1]
    rfl
  · rw [(C17_Reason_String 8).2.1 (by decide)]
    decide
  · rw [(C17_Reason_String (-1)).2.1 (by decide)]
    decide

/-! ### What a bucket index is relative to -/

/-- The floor quotient from its two bounds. -/
theorem fdiv_eq_of_bounds {period x k : Int} (hpos : 0 < period) (h1 : k * period ≤ x)
    (h2 : x < (k + 1) * period) : x.fdiv period = k := by
  rw [Int.fdiv_eq_ediv _ hpos.le]
  have hle : k ≤ x / period := Int.le_ediv_of_mul_le hpos h1
  have hlt : x / period < k + 1 := Int.ediv_lt_of_lt_mul hpos h2
  omega

/-- The bucket `Inc` adds to, by the age of the event at the clock reading. -/
theorem Inc_bucket_by_age {F : Type} [Zero F] [One F] [Add F] (p : periodicStats F)
    (now when : Int) (name : String) (k : Fin statsHistoryElements)
    (hp : validPeriod p.period) (hwhen : when ≤ now)
    (hlo : now - ((k : Int) + 1) * p.period < when) (hhi : when ≤ now - (k : Int) * p.period) :
    ∃ q, p.Inc now name when = some q ∧
      q.Entries.read name k = p.Entries.read name k + 1 ∧
      (∀ j, j ≠ k → q.Entries.read name j = p.Entries.read name j) ∧
      ∀ lastRotate, periodicStats.Inc { p with LastRotate := lastRotate } now name when =
        some { q with LastRotate := lastRotate } := by
  have hk : (now - when).fdiv p.period = (k : Int) :=
    fdiv_eq_of_bounds hp.1 (by omega) (by omega)
  refine ⟨_, Inc_inside p now when name k hp hwhen hk, ?_, ?_, ?_⟩
  · simp only [read_write_same, Function.update_same]
  · intro j hj
    simp only [read_write_same, Function.update_noteq hj]
  · intro lastRotate
    exact Inc_inside { p with LastRotate := lastRotate } now when name k hp hwhen hk

/-- C20, as the code has it: bucket indices are relative to the clock reading
of the call.  For a timestamp `when ≤ now` inside the retained history,
`Inc name when` adds to the bucket `k` (0 to 60) with
`now - (k + 1) * period < when ≤ now - k * period`, bucket 0 being the one for
`now - period < when`; the outcome is the same whatever `LastRotate` is. -/
theorem C20_bucket_relative_to_now {F : Type} [Zero F] [One F] [Add F] (p : periodicStats F)
    (now when : Int) (name : String) (k : Fin statsHistoryElements)
    (hp : validPeriod p.period) (hwhen : when ≤ now)
    (hlo : now - ((k : Int) + 1) * p.period < when) (hhi : when ≤ now - (k : Int) * p.period) :
    ∃ q, p.Inc now name when = some q ∧
      q.Entries.read name k = p.Entries.read name k + 1 ∧
      (∀ j, j ≠ k → q.Entries.read name j = p.Entries.read name j) ∧
      ∀ lastRotate, periodicStats.Inc { p with LastRotate := lastRotate } now name when =
        some { q with LastRotate := lastRotate } :=
  Inc_bucket_by_age p now when name k hp hwhen hlo hhi

/-- C20 as amended, on a fresh per-second series last rotated at 0: at
`now` = 0.9 s an event of 0.1 s before the rotation is counted in bucket 1. -/
theorem C20_bucket_relative_to_now_witness :
    ∃ q, (initPeriodicStats ℚ 0 second).Inc 900000000 "requests_total" (-100000000) = some q ∧
      q.Entries.read "requests_total" 1 = 0 + 1 ∧
      q.Entries.read "requests_total" 0 = 0 := by
  obtain ⟨q, hq, h1, h2, -⟩ :=
    C20_bucket_relative_to_now (initPeriodicStats ℚ 0 second) 900000000 (-100000000)
      "requests_total" 1 validPeriod_second (by decide) (by decide) (by decide)
  refine ⟨q, hq, ?_, ?_⟩
  · rw [h1, read_absent _ _ rfl]
  · rw [h2 0 (by decide), read_absent _ _ rfl]

/-- C20 fails as stated: on a fresh per-second series last rotated at 0, at
`now` = 0 an event of half a second before the rotation
(`LastRotate - 1 * period ≤ when < LastRotate`, bucket 1 by the claim) is
counted in bucket 0, and bucket 1 stays 0. -/
theorem C20_bucket_relative_to_now_counterexample :
    ((-500000000 : Int) ≤ 0 ∧ ¬ ((initPeriodicStats ℚ 0 second).LastRotate ≤ -500000000) ∧
      (initPeriodicStats ℚ 0 second).LastRotate - 1 * second ≤ -500000000 ∧
      (-500000000 : Int) < (initPeriodicStats ℚ 0 second).LastRotate - (1 - 1) * second) ∧
    ∃ q, (initPeriodicStats ℚ 0 second).Inc 0 "requests_total" (-500000000) = some q ∧
      q.Entries.read "requests_total" 0 = 1 ∧
      q.Entries.read "requests_total" 1 = 0 ∧
      q.Entries.read "requests_total" 1 ≠
        (initPeriodicStats ℚ 0 second).Entries.read "requests_total" 1 + 1 := by
  refine ⟨by decide, ?_⟩
  obtain ⟨q, hq, h1, h2, -⟩ :=
    Inc_bucket_by_age (initPeriodicStats ℚ 0 second) 0 (-500000000)
      "requests_total" 0 validPeriod_second (by decide) (by decide) (by decide)
  have hz : ∀ j, (initPeriodicStats ℚ 0 second).Entries.read "requests_total" j = 0 :=
    fun j => read_absent _ _ rfl j
  refine ⟨q, hq, ?_, ?_, ?_⟩
  · rw [h1, hz]; norm_num
  · rw [h2 1 (by decide), hz]
  · rw [h2 1 (by decide), hz]; norm_num

/-! ### Timestamps after the clock reading -/

/-- For a timestamp at least one period after the clock reading the code's
quotient is negative. -/
theorem durationDiv_future {period t u : Int} (hp : validPeriod period) (h : period ≤ u - t) :
    ∃ elapsed, durationDiv (timeSub t u) period = some elapsed ∧ elapsed < 0 := by
  obtain ⟨hpos, hfit⟩ := hp
  have h61 : (statsHistoryElements : Int) = 61 := rfl
  rw [h61] at hfit
  have hmin : minDuration = -(2 ^ 63) := rfl
  have hmax : maxDuration = 2 ^ 63 - 1 := rfl
  have hd : minDuration ≤ timeSub t u ∧ timeSub t u ≤ -period := by
    unfold timeSub
    split_ifs <;> omega
  obtain ⟨hd0, hd1⟩ := hd
  refine ⟨wrapInt64 ((timeSub t u).tdiv period), ?_, ?_⟩
  · unfold durationDiv
    rw [if_neg (by omega)]
  · have hneg : (timeSub t u).tdiv period = -((-(timeSub t u)) / period) := by
      rw [← Int.tdiv_eq_ediv (by omega) hpos.le, Int.neg_tdiv, Int.neg_neg]
    have h1 : 1 ≤ (-(timeSub t u)) / period :=
      Int.le_ediv_of_mul_le hpos (by omega)
    have h2 : (-(timeSub t u)) / period ≤ -(timeSub t u) := Int.ediv_le_self _ (by omega)
    rw [hneg, wrapInt64_of_range (by omega) (by omega)]
    omega

theorem arrayIndex_negative {i : Int} (h : i < 0) : arrayIndex i = none := by
  unfold arrayIndex
  rw [dif_neg (by omega)]

/-- A timestamp at least one period after the clock reading makes `Inc` and
`Observe` index their array with a negative number: a run-time fault. -/
theorem Inc_Observe_future_fault {F : Type} [Zero F] [One F] [Add F] (p : periodicStats F)
    (now when : Int) (name : String) (value : F) (hp : validPeriod p.period)
    (h : p.period ≤ when - now) :
    p.Inc now name when = none ∧ p.Observe now name when value = none := by
  obtain ⟨elapsed, he, hneg⟩ := durationDiv_future (t := now) (u := when) hp h
  have h61 : (statsHistoryElements : Int) = 61 := rfl
  constructor
  · unfold periodicStats.Inc timeSince
    rw [he]
    simp only
    rw [if_neg (by omega), arrayIndex_negative hneg]
  · unfold periodicStats.Observe timeSince
    rw [he]
    simp only
    rw [if_neg (by omega), arrayIndex_negative hneg]

/-- C21, the code at the failing input: on any per-second series, at any clock
reading `now`, the timestamp `now + 1s` has the elapsed-period index -1, which
passes the test `elapsed >= statsHistoryElements`, and `Inc` and `Observe` fault
indexing their array with it. -/
theorem C21_future_timestamp_faults {F : Type} [Zero F] [One F] [Add F]
    (entries : statsEntries F) (lastRotate now : Int) (name : String) (value : F) :
    durationDiv (timeSince now (now + second)) second = some (-1) ∧
    ¬ ((-1 : Int) ≥ statsHistoryElements) ∧ arrayIndex (-1) = none ∧
    periodicStats.Inc { Entries := entries, period := second, LastRotate := lastRotate }
      now name (now + second) = none ∧
    periodicStats.Observe { Entries := entries, period := second, LastRotate := lastRotate }
      now name (now + second) value = none := by
  have hsub : timeSub now (now + second) = -second := by
    unfold timeSub
    have h1 : now - (now + second) = -second := by omega
    rw [h1, if_neg (by decide), if_neg (by decide)]
  refine ⟨?_, by decide, by decide, ?_⟩
  · unfold timeSince
    rw [hsub]
    decide
  · exact Inc_Observe_future_fault _ now (now + second) name value validPeriod_second
      (by show second ≤ now + second - now; omega)

/-! ### The next filter ID -/

/-- What the loop does guarantee, for IDs below the largest `int64`:
`NextFilterId` does not decrease and ends at least as large as every filter
ID (not necessarily larger). -/
theorem parseConfigNextFilterId_ge (Filters : List filter) (NextFilterId : Int)
    (hrange : ∀ f ∈ Filters, -(2 ^ 63) ≤ f.ID ∧ f.ID < 2 ^ 63 - 1) :
    NextFilterId ≤ parseConfigNextFilterId NextFilterId Filters ∧
      ∀ f ∈ Filters, f.ID ≤ parseConfigNextFilterId NextFilterId Filters := by
  induction Filters generalizing NextFilterId with
  | nil => exact ⟨le_refl _, fun f hf => absurd hf (List.not_mem_nil f)⟩
  | cons g rest ih =>
    obtain ⟨hg0, hg1⟩ := hrange g (List.mem_cons_self _ _)
    have hstep : NextFilterId ≤
          (if NextFilterId < g.ID then wrapInt64 (g.ID + 1) else NextFilterId) ∧
        g.ID ≤ (if NextFilterId < g.ID then wrapInt64 (g.ID + 1) else NextFilterId) := by
      by_cases h : NextFilterId < g.ID
      · rw [if_pos h, wrapInt64_of_range (by omega) (by omega)]
        omega
      · rw [if_neg h]
        omega
    obtain ⟨h1, h2⟩ := ih
      (if NextFilterId < g.ID then wrapInt64 (g.ID + 1) else NextFilterId)
      (fun f hf => hrange f (List.mem_cons_of_mem _ hf))
    have hunfold : parseConfigNextFilterId NextFilterId (g :: rest) =
        parseConfigNextFilterId
          (if NextFilterId < g.ID then wrapInt64 (g.ID + 1) else NextFilterId) rest := rfl
    rw [hunfold]
    refine ⟨le_trans hstep.1 h1, ?_⟩
    intro f hf
    rcases List.mem_cons.1 hf with rfl | hrest
    · exact le_trans hstep.2 h1
    · exact h2 f hrest

/-- C22, the code at the failing input: with `NextFilterId = 5` and one filter
of ID 5 the test `NextFilterId < ID` fails and `NextFilterId` stays 5, the ID of
that filter; with `NextFilterId = 3` and filters of IDs 5 and 6 it ends at 6,
the ID of the second filter.  In both cases it is not `max(filter.ID) + 1` and
not greater than every filter ID. -/
theorem C22_NextFilterId_equals_a_filter_ID :
    parseConfigNextFilterId 5 [filterWithID 5] = 5 ∧
    parseConfigNextFilterId 3 [filterWithID 5, filterWithID 6] = 6 ∧
    ¬ (∀ f ∈ [filterWithID 5], f.ID < parseConfigNextFilterId 5 [filterWithID 5]) ∧
    ¬ (∀ f ∈ [filterWithID 5, filterWithID 6],
      f.ID < parseConfigNextFilterId 3 [filterWithID 5, filterWithID 6]) := by
  refine ⟨by decide, by decide, ?_, ?_⟩
  · intro h
    exact absurd (h _ (List.mem_cons_self _ _)) (by decide)
  · intro h
    exact absurd (h _ (List.mem_cons_of_mem _ (List.mem_cons_self _ _))) (by decide)

end Dnsfilter
